import Mathlib

/-!
Verification of the coderabbit-shadcn-registry build scripts.

The repository consists of three Node.js build scripts:
  * scripts/build-bundles.js       (the "Bundle Registry Builder")
  * scripts/build-flat-registry.js (the "Flat Registry Builder")
  * an unnamed post-build script   (the "Post-Build URL Transformer")

Each is a single-pass transformation over JSON documents.  We embed the JSON
value space and the scripts' functions shallowly: JavaScript exceptions
(TypeError on property access of null, `.map` of a non-array, ...) are
modelled with `Except Unit`, and filesystem effects are made explicit
(written files are returned as lists, the directory tree scanned by the
post-build transformer is an explicit inductive tree).
-/

/-- JSON-like values as manipulated by the build scripts.  `undefined` models
JavaScript `undefined` (an absent object property); the other constructors
are the JSON data types.  Numbers are restricted to integers, which covers
every numeric value occurring in the repository's data. -/
inductive JValue where
  | undefined
  | null
  | bool (b : Bool)
  | num (n : Int)
  | str (s : String)
  | arr (xs : List JValue)
  | obj (fields : List (String × JValue))
  deriving Repr

mutual

/-- Structural (boolean) equality on `JValue`. -/
def jeq : JValue → JValue → Bool
  | .undefined, .undefined => true
  | .null, .null => true
  | .bool a, .bool b => a == b
  | .num a, .num b => a == b
  | .str a, .str b => a == b
  | .arr a, .arr b => jeqArr a b
  | .obj a, .obj b => jeqObj a b
  | _, _ => false

/-- Structural equality on arrays of `JValue`. -/
def jeqArr : List JValue → List JValue → Bool
  | [], [] => true
  | a :: as, b :: bs => jeq a b && jeqArr as bs
  | _, _ => false

/-- Structural equality on field lists of `JValue` objects. -/
def jeqObj : List (String × JValue) → List (String × JValue) → Bool
  | [], [] => true
  | (k, v) :: as, (k2, v2) :: bs => k == k2 && jeq v v2 && jeqObj as bs
  | _, _ => false

end

theorem jeq_iff : ∀ a b : JValue, jeq a b = true ↔ a = b := by
  apply jeq.induct (fun a b => jeq a b = true ↔ a = b)
      (fun a b => jeqObj a b = true ↔ a = b)
      (fun a b => jeqArr a b = true ↔ a = b)
  case' case8 =>
    intro t x h1 h2 h3 h4 h5 h6 h7
    cases t <;> cases x <;> first
      | (exfalso; solve_by_elim)
      | (constructor <;> intro hh <;> simp_all [jeq])
  case' case11 =>
    intro t x h1 h2
    cases t <;> cases x <;> first
      | (exfalso; solve_by_elim)
      | (constructor <;> intro hh <;> simp_all [jeqArr])
  case' case14 =>
    intro t x h1 h2
    cases t <;> cases x <;> first
      | (exfalso; solve_by_elim)
      | (constructor <;> intro hh <;> simp_all [jeqObj])
  all_goals intros <;> simp_all [jeq, jeqArr, jeqObj]

instance : DecidableEq JValue := fun a b => decidable_of_iff _ (jeq_iff a b)

instance {ε α : Type} [DecidableEq ε] [DecidableEq α] : DecidableEq (Except ε α) := fun x y =>
  match x, y with
  | .ok a, .ok b => if h : a = b then isTrue (by rw [h]) else isFalse (by simp [h])
  | .error a, .error b => if h : a = b then isTrue (by rw [h]) else isFalse (by simp [h])
  | .ok _, .error _ => isFalse (by simp)
  | .error _, .ok _ => isFalse (by simp)

/-- First binding of key `k` in an object's field list (JavaScript own-property
lookup; `none` means the property is absent, i.e. reads as `undefined`). -/
def getFields : List (String × JValue) → String → Option JValue
  | [], _ => none
  | (k2, v) :: rest, k => if k2 = k then some v else getFields rest k

/-- JavaScript property assignment `o[k] = v` on an object: overwrite the
first binding of `k` keeping its position, or append a new binding. -/
def setFields : List (String × JValue) → String → JValue → List (String × JValue)
  | [], k, v => [(k, v)]
  | (k2, v2) :: rest, k, v =>
    if k2 = k then (k, v) :: rest else (k2, v2) :: setFields rest k v

/-- JavaScript truthiness of a value (`if (x)`): `undefined`, `null`, `false`,
`0` and the empty string are falsy; everything else — arrays and objects
included, even empty ones — is truthy. -/
def truthy : JValue → Bool
  | .undefined => false
  | .null => false
  | .bool b => b
  | .num n => n != 0
  | .str s => s != ""
  | _ => true

/-- JavaScript property read `x.k`: a TypeError on `null`/`undefined`
(modelled `.error ()`), the own property of an object (`undefined` when
absent), and `undefined` on primitives and arrays — none of the property
names read by the scripts exists on those. -/
def getProp : JValue → String → Except Unit JValue
  | .undefined, _ => .error ()
  | .null, _ => .error ()
  | .obj fs, k => .ok ((getFields fs k).getD .undefined)
  | _, _ => .ok .undefined

/-- JavaScript property write `x.k = v`: updates an object's field list.  The
scripts only assign to values from which they just read a truthy property,
which are necessarily objects; on any other value the write is kept as a
no-op (sloppy-mode silent failure on primitives). -/
def setProp : JValue → String → JValue → JValue
  | .obj fs, k, v => .obj (setFields fs k v)
  | x, _, _ => x

/-- Own enumerable properties contributed by `...x` inside an object literal:
an object contributes its fields; a string contributes index-keyed
one-character strings; an array contributes index-keyed elements; `null`,
`undefined`, booleans and numbers contribute nothing. -/
def fieldsOf : JValue → List (String × JValue)
  | .obj fs => fs
  | .str s => s.toList.enum.map fun ic => (toString ic.1, JValue.str (String.singleton ic.2))
  | .arr xs => xs.enum.map fun ix => (toString ix.1, ix.2)
  | _ => []

/-- Object literal `{ ...base, ...extra }`: fields of `extra` overwrite the
value of an existing key of `base` but keep that key's original position
(JavaScript spread semantics). -/
def jsSpread (base extra : List (String × JValue)) : List (String × JValue) :=
  extra.foldl (fun acc kv => setFields acc kv.1 kv.2) base

mutual

/-- The value actually serialised by `JSON.stringify(x, null, 2)`: object
properties whose value is `undefined` are dropped, and `undefined` array
elements are serialised as `null`.  On parsed-JSON input (no `undefined`
anywhere) this is the identity. -/
def jnorm : JValue → JValue
  | .obj fs => .obj (jnormFields fs)
  | .arr xs => .arr (jnormArr xs)
  | v => v

/-- `jnorm` on object field lists. -/
def jnormFields : List (String × JValue) → List (String × JValue)
  | [] => []
  | (k, v) :: rest =>
    match v with
    | .undefined => jnormFields rest
    | v => (k, jnorm v) :: jnormFields rest

/-- `jnorm` on arrays. -/
def jnormArr : List JValue → List JValue
  | [] => []
  | .undefined :: rest => .null :: jnormArr rest
  | v :: rest => jnorm v :: jnormArr rest

end

/-- `true` exactly on arrays (JavaScript `Array.isArray`). -/
def JValue.isArr : JValue → Bool
  | .arr _ => true
  | _ => false

/-- JavaScript `String.prototype.startsWith`. -/
def strStartsWith (s p : String) : Bool := p.toList.isPrefixOf s.toList

/-- The fixed base URL under which published registry artifacts live
(`REGISTRY_BASE_URL`, identical in all three scripts). -/
def REGISTRY_BASE_URL : String :=
  "https://raw.githubusercontent.com/RMNCLDYO/coderabbit-shadcn-registry/main/public/r"

/-- The arrow callback inside `transformRegistryDependencies` (textually
identical in scripts/build-bundles.js and scripts/build-flat-registry.js):
a `coderabbit-`-prefixed identifier becomes `REGISTRY_BASE_URL/<dep>.json`,
anything else is returned unchanged. -/
def rewriteDep (dep : String) : String :=
  if strStartsWith dep "coderabbit-" then REGISTRY_BASE_URL ++ "/" ++ dep ++ ".json"
  else dep

/-- The arrow callback inside `transformDeps` (post-build URL transformer):
identifiers already in URL form are skipped explicitly, then the
`coderabbit-` rule applies. -/
def rewriteDepPost (dep : String) : String :=
  if strStartsWith dep "http://" || strStartsWith dep "https://" then dep
  else if strStartsWith dep "coderabbit-" then REGISTRY_BASE_URL ++ "/" ++ dep ++ ".json"
  else dep

/-- `deps.map(cb)` where the callback calls `dep.startsWith`: JavaScript
throws a TypeError (modelled `.error ()`) on any non-string element. -/
def mapDeps (cb : String → String) : List JValue → Except Unit (List JValue)
  | [] => .ok []
  | .str s :: rest =>
      match mapDeps cb rest with
      | .ok r => .ok (.str (cb s) :: r)
      | .error e => .error e
  | _ :: _ => .error ()

/-- `transformRegistryDependencies` from scripts/build-bundles.js: it has no
guard, so `deps.map(...)` throws on `null`, `undefined` and any other
non-array input. -/
def transformRegistryDependenciesBundles (deps : JValue) : Except Unit JValue :=
  match deps with
  | .arr xs => do
      let ys ← mapDeps rewriteDep xs
      .ok (.arr ys)
  | _ => .error ()

/-- `transformRegistryDependencies` from scripts/build-flat-registry.js:
guarded by `if (!deps || !Array.isArray(deps)) return deps;`, so every
non-array input is returned unchanged. -/
def transformRegistryDependenciesFlat (deps : JValue) : Except Unit JValue :=
  match deps with
  | .arr xs => do
      let ys ← mapDeps rewriteDep xs
      .ok (.arr ys)
  | v => .ok v

/-- `transformDeps` from the post-build URL transformer, with the same
non-array guard as the flat builder's version. -/
def transformDeps (deps : JValue) : Except Unit JValue :=
  match deps with
  | .arr xs => do
      let ys ← mapDeps rewriteDepPost xs
      .ok (.arr ys)
  | v => .ok v

/-- An array of strings, as a `JValue`. -/
def jstrArr (deps : List String) : JValue := .arr (deps.map JValue.str)

theorem strStartsWith_clash {s p q : String} (hp : strStartsWith s p = true)
    (hq : strStartsWith s q = true) (hlen : q.toList.length ≤ p.toList.length) :
    q.toList.isPrefixOf p.toList = true := by
  unfold strStartsWith at hp hq
  rw [ List.isPrefixOf_iff_prefix] at *
  exact List.prefix_of_prefix_length_le hq hp hlen

theorem coderabbit_not_url {s : String} (h : strStartsWith s "coderabbit-" = true) :
    strStartsWith s "http://" = false ∧ strStartsWith s "https://" = false := by
  constructor
  · by_contra hc
    simp only [Bool.not_eq_false] at hc
    have := strStartsWith_clash h hc (by decide)
    revert this
    decide
  · by_contra hc
    simp only [Bool.not_eq_false] at hc
    have := strStartsWith_clash h hc (by decide)
    revert this
    decide

theorem rewriteDep_eq_rewriteDepPost (s : String) : rewriteDep s = rewriteDepPost s := by
  unfold rewriteDep rewriteDepPost
  by_cases h : strStartsWith s "coderabbit-" = true
  · obtain ⟨h1, h2⟩ := coderabbit_not_url h
    simp [h, h1, h2]
  · simp only [Bool.not_eq_true] at h
    simp only [h, if_false]
    by_cases h2 : (strStartsWith s "http://" || strStartsWith s "https://") = true <;>
      simp [h2]

theorem mapDeps_congr {f g : String → String} (h : ∀ s, f s = g s) :
    ∀ xs, mapDeps f xs = mapDeps g xs := by
  intro xs
  induction xs with
  | nil => rfl
  | cons x rest ih =>
    cases x <;> simp [mapDeps, ih, h]

theorem mapDeps_str (cb : String → String) (deps : List String) :
    mapDeps cb (deps.map JValue.str) = .ok ((deps.map cb).map JValue.str) := by
  induction deps with
  | nil => rfl
  | cons d rest ih => simp [mapDeps, ih]

/-- The item callback inside `processFile`'s `data.items.map(...)`: if the
item has a truthy `registryDependencies` property, rewrite it and — when the
rewrite changed it (`JSON.stringify` comparison, which on parse results
coincides with structural equality) — return a shallow copy
`{ ...item, registryDependencies: transformed }` and set the modified flag.
Otherwise return the item itself. -/
def processItem (item : JValue) : Except Unit (JValue × Bool) := do
  let rd ← getProp item "registryDependencies"
  if truthy rd then do
    let t ← transformDeps rd
    if t ≠ rd then
      .ok (.obj (setFields (fieldsOf item) "registryDependencies" t), true)
    else .ok (item, false)
  else .ok (item, false)

/-- `data.items.map(...)` over all items, accumulating the shared `modified`
flag; an exception in the callback aborts the whole map. -/
def processItems : List JValue → Except Unit (List JValue × Bool)
  | [] => .ok ([], false)
  | item :: rest => do
      let ym ← processItem item
      let rest2 ← processItems rest
      .ok (ym.1 :: rest2.1, ym.2 || rest2.2)

/-- The root-level `registryDependencies` step of `processFile`: rewrite a
truthy `data.registryDependencies`, assign it back and flag `modified` only
when the rewrite changed it (the source mutates `data`; we pass the updated
document explicitly). -/
def rootStep (data : JValue) : Except Unit (JValue × Bool) := do
  let rd ← getProp data "registryDependencies"
  if truthy rd then do
    let t ← transformDeps rd
    if t ≠ rd then
      (.ok (setProp data "registryDependencies" t, true) : Except Unit (JValue × Bool))
    else .ok (data, false)
  else .ok (data, false)

/-- `processFile` of the post-build URL transformer, acting on the parsed
document: the root `registryDependencies` step, then, if `data.items` is an
array, map the item callback over it and assign the result back.  Returns
the final document and the `modified` flag; `.error ()` is a thrown
exception (caught by the script's try/catch, which logs and skips the
file). -/
def processFile (data : JValue) : Except Unit (JValue × Bool) := do
  let step1 ← rootStep data
  let items ← getProp step1.1 "items"
  match items with
  | .arr xs => do
      let ysm ← processItems xs
      .ok (setProp step1.1 "items" (.arr ysm.1), step1.2 || ysm.2)
  | _ => .ok step1

/-- JavaScript `String.prototype.endsWith`. -/
def strEndsWith (s p : String) : Bool := p.toList.isSuffixOf s.toList

/-- A directory tree as scanned by the post-build transformer.  A file node
carries the JSON value its contents parse to, or `none` when reading or
parsing it fails; a directory node carries a `readable` flag — `false`
models an `fs.readdirSync` failure on that directory. -/
inductive FTree where
  | file (name : String) (content : Option JValue)
  | dir (name : String) (entries : List FTree) (readable : Bool)
  deriving Repr

mutual

/-- `findJsonFiles(dir)`: list the directory (throwing if it is unreadable),
recurse into subdirectories except ones named `registry`, and collect paths
ending in `.json` together with their parse results.  `p` is the path of
the directory being listed.  No call is wrapped in a try/catch. -/
def findJsonFiles (p : String) : FTree → Except Unit (List (String × Option JValue))
  | .file _ _ => .error ()
  | .dir _ entries readable =>
      if readable then findJsonFilesList p entries else .error ()

/-- The `for (const entry of entries)` loop of `findJsonFiles`. -/
def findJsonFilesList (p : String) : List FTree → Except Unit (List (String × Option JValue))
  | [] => .ok []
  | .dir n es r :: rest =>
      if n ≠ "registry" then do
        let sub ← findJsonFiles (p ++ "/" ++ n) (.dir n es r)
        let more ← findJsonFilesList p rest
        .ok (sub ++ more)
      else findJsonFilesList p rest
  | .file n c :: rest =>
      if strEndsWith n ".json" then do
        let more ← findJsonFilesList p rest
        .ok ((p ++ "/" ++ n, c) :: more)
      else findJsonFilesList p rest

end

/-- One iteration of the transformer's main loop on a single file: read and
parse (`none` = the read or parse throws), transform via `processFile`,
write back when modified (`writeOk = false` models a write failure).  Every
throw happens inside `processFile`'s try/catch, which logs the path and
message and returns `false`.  The result is the file's contribution to the
reported `transformedCount`. -/
def processFileIO (content : Option JValue) (writeOk : Bool) : Bool :=
  match content with
  | none => false
  | some d =>
      match processFile d with
      | .error _ => false
      | .ok dm => if dm.2 then writeOk else false

/-- The transformer's top level: enumerate every JSON file under the output
root (the enumeration is NOT inside any try/catch, so its failure aborts
the run), then process each file in order, counting the ones reported
transformed. -/
def mainRun (root : FTree) (writeOk : String → Bool) : Except Unit Nat := do
  let files ← findJsonFiles "public/r" root
  .ok (files.foldl (fun n f => if processFileIO f.2 (writeOk f.1) then n + 1 else n) 0)

/-- The registry-item schema tag merged into every generated item JSON. -/
def SCHEMA_ITEM : String := "https://ui.shadcn.com/schema/registry-item.json"

/-- The registry schema tag of generated registry indexes. -/
def SCHEMA_REGISTRY : String := "https://ui.shadcn.com/schema/registry.json"

/-- `const { content, ...fileWithoutContent } = file; return fileWithoutContent`:
rest-destructuring throws a TypeError on `null`/`undefined` and otherwise
collects every own enumerable property except `content` into a fresh
object. -/
def stripContent (file : JValue) : Except Unit JValue :=
  match file with
  | .undefined => .error ()
  | .null => .error ()
  | f => .ok (.obj ((fieldsOf f).filter (fun kv => kv.1 != "content")))

/-- `cleanItem.files.map(stripContent)`. -/
def mapStrip : List JValue → Except Unit (List JValue)
  | [] => .ok []
  | f :: rest =>
      match stripContent f, mapStrip rest with
      | .ok g, .ok gs => .ok (g :: gs)
      | .error e, _ => .error e
      | .ok _, .error e => .error e

/-- `generateItemJSON(item)` of the flat registry builder: start from
`{ $schema, ...item }`, rewrite a truthy `registryDependencies` in place,
and replace `files` (when it is an array) by its entries stripped of their
`content` property. -/
def generateItemJSON (item : JValue) : Except Unit JValue := do
  let clean0 := JValue.obj (jsSpread [("$schema", .str SCHEMA_ITEM)] (fieldsOf item))
  let rd ← getProp clean0 "registryDependencies"
  let clean1 ←
    if truthy rd then do
      let t ← transformRegistryDependenciesFlat rd
      (.ok (setProp clean0 "registryDependencies" t) : Except Unit JValue)
    else .ok clean0
  let files ← getProp clean1 "files"
  match files with
  | .arr fs => do
      let gs ← mapStrip fs
      .ok (setProp clean1 "files" (.arr gs))
  | _ => .ok clean1

/-- JavaScript string coercion as used by the template literal
`${item.name}.json`.  Faithful for the primitive values; for arrays
(JavaScript would join the recursively coerced elements with commas) and
objects (`"[object Object]"`) the case never arises in the scripts' data
and is approximated by a constant. -/
def jsToString : JValue → String
  | .str s => s
  | .num n => toString n
  | .bool true => "true"
  | .bool false => "false"
  | .null => "null"
  | .undefined => "undefined"
  | .arr _ => ""
  | .obj _ => "[object Object]"

/-- The `for (const file of item.files)` loop of `copySourceFiles`: read
`file.path` (throws on `null`/`undefined` entries), join it under the
output directory (`path.join` throws a TypeError on a non-string), then
copy if a source file exists there, else warn and skip. -/
def copyLoop : List JValue → (String → Bool) → Except Unit (List String)
  | [], _ => .ok []
  | f :: rest, ex => do
      let p ← getProp f "path"
      match p with
      | .str s =>
          match copyLoop rest ex with
          | .ok more => if ex s then .ok (s :: more) else .ok more
          | .error e => .error e
      | _ => .error ()

/-- `copySourceFiles(item)`: a no-op unless `item.files` is an array,
otherwise copy each existing source file, returning the copied paths (the
script returns their count). -/
def copySourceFiles (item : JValue) (srcExists : String → Bool) :
    Except Unit (List String) := do
  let files ← getProp item "files"
  match files with
  | .arr fs => copyLoop fs srcExists
  | _ => .ok []

/-- The per-item loop of `buildFlatRegistry`: skip items with a falsy `name`
(warning only, processing continues), otherwise write `<name>.json` — the
serialised `generateItemJSON` output — and copy the item's source files. -/
def flatLoop : List JValue → (String → Bool) → Except Unit (List (String × JValue) × List String)
  | [], _ => .ok ([], [])
  | item :: rest, ex => do
      let name ← getProp item "name"
      if truthy name then do
        let itemJSON ← generateItemJSON item
        let copies ← copySourceFiles item ex
        let more ← flatLoop rest ex
        .ok ((jsToString name ++ ".json", jnorm itemJSON) :: more.1, copies ++ more.2)
      else flatLoop rest ex

/-- The `registry.items.map(...)` of the consolidated index: shallow-copy
each item with `registryDependencies` replaced by its rewrite.  The key is
added even when absent — its value is then `undefined` and serialisation
(`jnorm`) drops it again. -/
def consolidateItems : List JValue → Except Unit (List JValue)
  | [] => .ok []
  | item :: rest => do
      let rd ← getProp item "registryDependencies"
      let t ← transformRegistryDependenciesFlat rd
      let more ← consolidateItems rest
      .ok (.obj (setFields (fieldsOf item) "registryDependencies" t) :: more)

/-- `buildFlatRegistry()` with the filesystem made explicit: `registry` is
the parse of registry.json and `srcExists` says which source paths exist.
Returns the JSON files written, in order, with paths relative to the output
directory `public/r` and values as serialised, together with the copied
source paths; `.error ()` is a fatal run (exit code 1): missing or
non-array `items`, or any exception reaching the top-level catch. -/
def buildFlatRegistry (registry : JValue) (srcExists : String → Bool) :
    Except Unit (List (String × JValue) × List String) := do
  let items ← getProp registry "items"
  match items with
  | .arr xs => do
      let wc ← flatLoop xs srcExists
      let newItems ← consolidateItems xs
      .ok (wc.1 ++
            [("registry.json", jnorm (.obj (setFields (fieldsOf registry) "items" (.arr newItems))))],
          wc.2)
  | _ => .error ()

/-- The `localstorage` entry of the `BUNDLES` table (scripts/build-bundles.js),
fields in source order. -/
def BUNDLE_localstorage : List (String × JValue) := [
  ("name", .str "coderabbit"),
  ("type", .str "registry:block"),
  ("title", .str "CodeRabbit with LocalStorage"),
  ("author", .str "Ray <hi@rmncldyo.com>"),
  ("description", .str "Complete CodeRabbit integration with browser localStorage persistence. Includes types, API client, storage adapter, React hook, form component, and branding. Perfect for browser-based applications, prototyping, and testing. Reports persist across page reloads."),
  ("dependencies", jstrArr ["react", "lucide-react"]),
  ("registryDependencies", jstrArr ["button", "input", "label", "select", "textarea",
    "coderabbit-types", "coderabbit-client", "coderabbit-storage-adapter",
    "coderabbit-storage-localstorage", "coderabbit-react", "coderabbit-form",
    "coderabbit-branding"]),
  ("envVars", .obj [("CODERABBIT_API_KEY", .str "")]),
  ("meta", .obj [("source", .str "https://github.com/RMNCLDYO/coderabbit-shadcn-registry"),
    ("license", .str "MIT"), ("backend", .str "localStorage")]),
  ("docs", .str "Get CODERABBIT_API_KEY from https://app.coderabbit.ai/settings/api-keys (requires Pro plan). No database setup required. Data persists in browser localStorage across page reloads (~5-10MB limit). Perfect for prototyping and client-side apps. Use LocalStorageAdapter in your useCodeRabbit hook."),
  ("categories", jstrArr ["complete", "browser", "developer-tools"])]

/-- The `convex` entry of the `BUNDLES` table. -/
def BUNDLE_convex : List (String × JValue) := [
  ("name", .str "coderabbit"),
  ("type", .str "registry:block"),
  ("title", .str "CodeRabbit with Convex"),
  ("author", .str "Ray <hi@rmncldyo.com>"),
  ("description", .str "Complete CodeRabbit integration with Convex real-time database. Includes types, API client, storage adapter, schema, React hook, form component, and branding. Perfect for production applications with real-time sync and auth support."),
  ("dependencies", jstrArr ["react", "lucide-react", "convex"]),
  ("registryDependencies", jstrArr ["button", "input", "label", "select", "textarea",
    "coderabbit-types", "coderabbit-client", "coderabbit-storage-adapter",
    "coderabbit-storage-convex", "coderabbit-react", "coderabbit-form",
    "coderabbit-branding"]),
  ("envVars", .obj [("CODERABBIT_API_KEY", .str ""), ("CONVEX_DEPLOYMENT", .str ""),
    ("CONVEX_URL", .str ""), ("CONVEX_SITE_URL", .str "")]),
  ("meta", .obj [("source", .str "https://github.com/RMNCLDYO/coderabbit-shadcn-registry"),
    ("license", .str "MIT"), ("backend", .str "Convex")]),
  ("docs", .str "Get CODERABBIT_API_KEY from https://app.coderabbit.ai/settings/api-keys (requires Pro plan). Run \"npx convex dev\" to automatically populate CONVEX_DEPLOYMENT and CONVEX_URL in your .env.local. CONVEX_SITE_URL is optional (only needed for HTTP actions). Import coderabbitReportsTable in your convex/schema.ts and add as \"coderabbit_reports\" table."),
  ("categories", jstrArr ["complete", "database", "real-time", "developer-tools"])]

/-- The `supabase` entry of the `BUNDLES` table. -/
def BUNDLE_supabase : List (String × JValue) := [
  ("name", .str "coderabbit"),
  ("type", .str "registry:block"),
  ("title", .str "CodeRabbit with Supabase"),
  ("author", .str "Ray <hi@rmncldyo.com>"),
  ("description", .str "Complete CodeRabbit integration with Supabase (PostgreSQL). Includes types, API client, storage adapter with Row Level Security, React hook, form component, and branding. Perfect for apps with authentication and real-time features."),
  ("dependencies", jstrArr ["react", "lucide-react", "@supabase/supabase-js"]),
  ("registryDependencies", jstrArr ["button", "input", "label", "select", "textarea",
    "coderabbit-types", "coderabbit-client", "coderabbit-storage-adapter",
    "coderabbit-storage-supabase", "coderabbit-react", "coderabbit-form",
    "coderabbit-branding"]),
  ("envVars", .obj [("CODERABBIT_API_KEY", .str ""), ("SUPABASE_URL", .str ""),
    ("SUPABASE_ANON_KEY", .str "")]),
  ("meta", .obj [("source", .str "https://github.com/RMNCLDYO/coderabbit-shadcn-registry"),
    ("license", .str "MIT"), ("backend", .str "Supabase")]),
  ("docs", .str "Get CODERABBIT_API_KEY from https://app.coderabbit.ai/settings/api-keys (requires Pro plan). Get SUPABASE_URL and SUPABASE_ANON_KEY from your Supabase dashboard: Project Settings → API. Or run \"npx supabase init && npx supabase start\" for local development. Run the SQL schema from storage-supabase.ts to create the coderabbit_reports table with RLS policies."),
  ("categories", jstrArr ["complete", "database", "developer-tools"])]

/-- The `postgres` entry of the `BUNDLES` table. -/
def BUNDLE_postgres : List (String × JValue) := [
  ("name", .str "coderabbit"),
  ("type", .str "registry:block"),
  ("title", .str "CodeRabbit with PostgreSQL"),
  ("author", .str "Ray <hi@rmncldyo.com>"),
  ("description", .str "Complete CodeRabbit integration with PostgreSQL. Includes types, API client, storage adapter with connection pooling, React hook, form component, and branding. Works with Neon, Vercel Postgres, Railway, AWS RDS, Google Cloud SQL, etc."),
  ("dependencies", jstrArr ["react", "lucide-react", "pg"]),
  ("devDependencies", jstrArr ["@types/pg"]),
  ("registryDependencies", jstrArr ["button", "input", "label", "select", "textarea",
    "coderabbit-types", "coderabbit-client", "coderabbit-storage-adapter",
    "coderabbit-storage-postgres", "coderabbit-react", "coderabbit-form",
    "coderabbit-branding"]),
  ("envVars", .obj [("CODERABBIT_API_KEY", .str ""), ("POSTGRES_HOST", .str ""),
    ("POSTGRES_PORT", .str "5432"), ("POSTGRES_DATABASE", .str ""),
    ("POSTGRES_USER", .str ""), ("POSTGRES_PASSWORD", .str "")]),
  ("meta", .obj [("source", .str "https://github.com/RMNCLDYO/coderabbit-shadcn-registry"),
    ("license", .str "MIT"), ("backend", .str "PostgreSQL")]),
  ("docs", .str "Get CODERABBIT_API_KEY from https://app.coderabbit.ai/settings/api-keys (requires Pro plan). Get connection details from your provider dashboard (Neon, Vercel Postgres, Railway, AWS RDS). For local dev: \"docker run -e POSTGRES_PASSWORD=password -p 5432:5432 postgres\". Run the SQL schema from storage-postgres.ts to create the coderabbit_reports table."),
  ("categories", jstrArr ["complete", "database", "developer-tools"])]

/-- The `mysql` entry of the `BUNDLES` table. -/
def BUNDLE_mysql : List (String × JValue) := [
  ("name", .str "coderabbit"),
  ("type", .str "registry:block"),
  ("title", .str "CodeRabbit with MySQL"),
  ("author", .str "Ray <hi@rmncldyo.com>"),
  ("description", .str "Complete CodeRabbit integration with MySQL/MariaDB. Includes types, API client, storage adapter with connection pooling, React hook, form component, and branding. Works with PlanetScale, AWS RDS, Google Cloud SQL, Azure, etc."),
  ("dependencies", jstrArr ["react", "lucide-react", "mysql2"]),
  ("devDependencies", jstrArr ["@types/mysql2"]),
  ("registryDependencies", jstrArr ["button", "input", "label", "select", "textarea",
    "coderabbit-types", "coderabbit-client", "coderabbit-storage-adapter",
    "coderabbit-storage-mysql", "coderabbit-react", "coderabbit-form",
    "coderabbit-branding"]),
  ("envVars", .obj [("CODERABBIT_API_KEY", .str ""), ("MYSQL_HOST", .str ""),
    ("MYSQL_PORT", .str "3306"), ("MYSQL_DATABASE", .str ""),
    ("MYSQL_USER", .str ""), ("MYSQL_PASSWORD", .str "")]),
  ("meta", .obj [("source", .str "https://github.com/RMNCLDYO/coderabbit-shadcn-registry"),
    ("license", .str "MIT"), ("backend", .str "MySQL")]),
  ("docs", .str "Get CODERABBIT_API_KEY from https://app.coderabbit.ai/settings/api-keys (requires Pro plan). Get connection details from your provider dashboard (PlanetScale, AWS RDS, Google Cloud SQL). For local dev: \"docker run -e MYSQL_ROOT_PASSWORD=password -p 3306:3306 mysql\". Run the SQL schema from storage-mysql.ts to create the coderabbit_reports table."),
  ("categories", jstrArr ["complete", "database", "developer-tools"])]

/-- The fixed `BUNDLES` table of scripts/build-bundles.js; `Object.keys`
enumerates its string keys in insertion order. -/
def BUNDLES : List (String × JValue) := [
  ("localstorage", .obj BUNDLE_localstorage),
  ("convex", .obj BUNDLE_convex),
  ("supabase", .obj BUNDLE_supabase),
  ("postgres", .obj BUNDLE_postgres),
  ("mysql", .obj BUNDLE_mysql)]

/-- `generateBundleJSON(bundleConfig)`:
`{ $schema, ...bundleConfig, registryDependencies: transform(...) }` —
the transform is the build-bundles.js version without guard, so it throws
if the config lacks an array `registryDependencies`. -/
def generateBundleJSON (cfg : JValue) : Except Unit JValue := do
  let rd ← getProp cfg "registryDependencies"
  let t ← transformRegistryDependenciesBundles rd
  .ok (.obj (setFields (jsSpread [("$schema", .str SCHEMA_ITEM)] (fieldsOf cfg))
    "registryDependencies" t))

/-- The `items.map(...)` of `createBundleRegistry`: shallow-copy each item
with its `registryDependencies` rewritten. -/
def bundleRegistryItems : List JValue → Except Unit (List JValue)
  | [] => .ok []
  | item :: rest => do
      let rd ← getProp item "registryDependencies"
      let t ← transformRegistryDependenciesBundles rd
      let more ← bundleRegistryItems rest
      .ok (.obj (setFields (fieldsOf item) "registryDependencies" t) :: more)

/-- `createBundleRegistry(backend, items)` — the `backend` argument is unused
by the source function.  Wraps the rewritten items in the fixed registry
document with `name` and `homepage`. -/
def createBundleRegistry (_backend : String) (items : List JValue) : Except Unit JValue := do
  let tis ← bundleRegistryItems items
  .ok (.obj [("$schema", .str SCHEMA_REGISTRY),
    ("name", .str "coderabbit"),
    ("homepage", .str "https://github.com/RMNCLDYO/coderabbit-shadcn-registry"),
    ("items", .arr tis)])

/-- The `for (const backend of backends)` loop of `buildBundles()`: per
backend, write `<backend>/coderabbit.json` (the serialised bundle) then
`<backend>/registry.json` (a registry containing exactly this one
bundle). -/
def buildBundlesLoop : List (String × JValue) → Except Unit (List (String × JValue))
  | [] => .ok []
  | (backend, cfg) :: rest => do
      let bundleJSON ← generateBundleJSON cfg
      let registryJSON ← createBundleRegistry backend [cfg]
      let more ← buildBundlesLoop rest
      .ok ((backend ++ "/coderabbit.json", jnorm bundleJSON) ::
           (backend ++ "/registry.json", jnorm registryJSON) :: more)

/-- `buildBundles()`: the files written by the bundle registry builder, with
paths relative to the output directory `public/r`; `.error ()` is an
exception reaching the top-level catch (exit code 1). -/
def buildBundles : Except Unit (List (String × JValue)) := buildBundlesLoop BUNDLES

@[simp] theorem exceptOkBind {ε α β : Type} (a : α) (f : α → Except ε β) :
    (do let x ← (Except.ok a : Except ε α); f x) = f a := rfl

@[simp] theorem exceptErrorBind {ε α β : Type} (e : ε) (f : α → Except ε β) :
    (do let x ← (Except.error e : Except ε α); f x) = Except.error e := rfl

theorem coderabbit_rewrite_unchanged {s : String}
    (h : strStartsWith s "coderabbit-" = false) : rewriteDep s = s := by
  simp [rewriteDep, h]

theorem url_rewrite_unchanged {s : String}
    (h : strStartsWith s "http://" = true ∨ strStartsWith s "https://" = true) :
    rewriteDep s = s := by
  have hc : strStartsWith s "coderabbit-" = false := by
    by_contra hcc
    simp only [Bool.not_eq_false] at hcc
    obtain ⟨h1, h2⟩ := coderabbit_not_url hcc
    cases h <;> simp_all
  exact coderabbit_rewrite_unchanged hc

/-- C1: for every dependency identifier in the input list of the dependency
rewriter — `transformRegistryDependencies` in both builders and
`transformDeps` in the post-build transformer — a `coderabbit-`-prefixed
identifier is rewritten to `REGISTRY_BASE_URL/<d>.json`, an identifier
starting with `http://` or `https://` stays unchanged, and any other
identifier stays unchanged; each implementation maps a string array to the
elementwise rewrite, so the output has the same length and order as the
input. -/
theorem c1_dependency_rewriter (deps : List String) :
    transformRegistryDependenciesBundles (jstrArr deps) = .ok (jstrArr (deps.map rewriteDep)) ∧
    transformRegistryDependenciesFlat (jstrArr deps) = .ok (jstrArr (deps.map rewriteDep)) ∧
    transformDeps (jstrArr deps) = .ok (jstrArr (deps.map rewriteDep)) ∧
    (deps.map rewriteDep).length = deps.length ∧
    ∀ d ∈ deps,
      (strStartsWith d "coderabbit-" = true →
        rewriteDep d = REGISTRY_BASE_URL ++ "/" ++ d ++ ".json") ∧
      (strStartsWith d "http://" = true ∨ strStartsWith d "https://" = true →
        rewriteDep d = d) ∧
      (strStartsWith d "coderabbit-" = false → rewriteDep d = d) := by
  refine ⟨?_, ?_, ?_, by simp, ?_⟩
  · simp [transformRegistryDependenciesBundles, jstrArr, mapDeps_str]
  · simp [transformRegistryDependenciesFlat, jstrArr, mapDeps_str]
  · simp only [transformDeps, jstrArr]
    rw [mapDeps_congr (fun s => (rewriteDep_eq_rewriteDepPost s).symm), mapDeps_str]
    rfl
  · intro d _
    exact ⟨fun h => by simp [rewriteDep, h], url_rewrite_unchanged,
      coderabbit_rewrite_unchanged⟩

theorem c1_dependency_rewriter_witness :
    transformDeps (jstrArr ["button", "coderabbit-types", "https://x.com/a.json"]) =
      .ok (jstrArr ["button",
        "https://raw.githubusercontent.com/RMNCLDYO/coderabbit-shadcn-registry/main/public/r/coderabbit-types.json",
        "https://x.com/a.json"]) ∧
    rewriteDep "coderabbit-types" = REGISTRY_BASE_URL ++ "/" ++ "coderabbit-types" ++ ".json" ∧
    rewriteDep "https://x.com/a.json" = "https://x.com/a.json" ∧
    rewriteDep "button" = "button" := by
  have h := c1_dependency_rewriter ["button", "coderabbit-types", "https://x.com/a.json"]
  refine ⟨?_, ?_, ?_, ?_⟩
  · rw [h.2.2.1]; decide
  · exact (h.2.2.2.2 "coderabbit-types" (by decide)).1 (by decide)
  · exact (h.2.2.2.2 "https://x.com/a.json" (by decide)).2.1 (Or.inr (by decide))
  · exact (h.2.2.2.2 "button" (by decide)).2.2 (by decide)

/-- C10: the flat registry builder's rewriter (no explicit URL check) and the
post-build transformer's rewriter (explicit URL skip) are extensionally
equal on every input, list or not — no identifier starting with `http://`
or `https://` also starts with `coderabbit-`. -/
theorem c10_flat_and_post_rewriters_agree (v : JValue) :
    transformRegistryDependenciesFlat v = transformDeps v := by
  cases v <;> try rfl
  case arr xs =>
    simp only [transformRegistryDependenciesFlat, transformDeps]
    rw [mapDeps_congr rewriteDep_eq_rewriteDepPost]

/-- C4 counterexample: the bundle registry builder's
`transformRegistryDependencies` has no guard, so on `null` input it throws
a TypeError (`deps.map` of `null`) instead of returning the input
unchanged. -/
theorem c4_counterexample :
    transformRegistryDependenciesBundles JValue.null = .error () ∧
    transformRegistryDependenciesBundles JValue.null ≠ .ok JValue.null := by
  exact ⟨by decide, by decide⟩

/-- C4 amended: on every absent (`null`/`undefined`) or non-array input, the
flat registry builder's and the post-build transformer's rewriters return
the input unchanged without error, but the bundle registry builder's
implementation (which lacks the defensive guard) throws. -/
theorem c4_non_list_defensive (v : JValue) (h : v.isArr = false) :
    transformRegistryDependenciesFlat v = .ok v ∧
    transformDeps v = .ok v ∧
    transformRegistryDependenciesBundles v = .error () := by
  cases v <;> simp_all [JValue.isArr, transformRegistryDependenciesFlat, transformDeps,
    transformRegistryDependenciesBundles]

theorem c4_non_list_defensive_witness :
    JValue.null.isArr = false ∧
    (transformRegistryDependenciesFlat JValue.null = .ok JValue.null ∧
     transformDeps JValue.null = .ok JValue.null ∧
     transformRegistryDependenciesBundles JValue.null = .error ()) :=
  ⟨by decide, c4_non_list_defensive JValue.null (by decide)⟩

/-- The value of property `k` of an object, `undefined` when absent: the
total counterpart of `getProp` away from `null`/`undefined`. -/
def jprop (v : JValue) (k : String) : JValue :=
  match v with
  | .obj fs => (getFields fs k).getD .undefined
  | _ => .undefined

/-- Property lookup as an `Option` (`none` both when the key is absent and on
non-objects), convenient for stating frame conditions. -/
def jget (v : JValue) (k : String) : Option JValue :=
  match v with
  | .obj fs => getFields fs k
  | _ => none

theorem getFields_set_same (fs : List (String × JValue)) (k : String) (v : JValue) :
    getFields (setFields fs k v) k = some v := by
  induction fs with
  | nil => simp [setFields, getFields]
  | cons kv rest ih =>
    obtain ⟨k2, v2⟩ := kv
    by_cases h : k2 = k <;> simp [setFields, getFields, h, ih]

theorem getFields_set_other {k k2 : String} (h : k2 ≠ k)
    (fs : List (String × JValue)) (v : JValue) :
    getFields (setFields fs k v) k2 = getFields fs k2 := by
  have hne : ¬ k = k2 := fun hh => h hh.symm
  induction fs with
  | nil => simp [setFields, getFields, hne]
  | cons kv rest ih =>
    obtain ⟨k3, v3⟩ := kv
    by_cases h3 : k3 = k
    · subst h3
      simp [setFields, getFields, hne]
    · by_cases h2 : k3 = k2 <;> simp [setFields, getFields, h3, h2, ih, h, hne]

theorem setFields_set_same (fs : List (String × JValue)) (k : String) (v : JValue) :
    setFields (setFields fs k v) k v = setFields fs k v := by
  induction fs with
  | nil => simp [setFields]
  | cons kv rest ih =>
    obtain ⟨k2, v2⟩ := kv
    by_cases h : k2 = k <;> simp [setFields, h, ih]

theorem setFields_of_getFields {fs : List (String × JValue)} {k : String} {v : JValue}
    (h : getFields fs k = some v) : setFields fs k v = fs := by
  induction fs with
  | nil => simp [getFields] at h
  | cons kv rest ih =>
    obtain ⟨k2, v2⟩ := kv
    by_cases h2 : k2 = k
    · subst h2
      simp [getFields] at h
      simp [setFields, h]
    · simp [getFields, h2] at h
      simp [setFields, h2, ih h]

theorem getFields_eq_none {fs : List (String × JValue)} {k : String}
    (h : k ∉ fs.map Prod.fst) : getFields fs k = none := by
  induction fs with
  | nil => rfl
  | cons kv rest ih =>
    obtain ⟨k2, v2⟩ := kv
    rw [List.map_cons, List.mem_cons] at h
    push_neg at h
    have hne : ¬ k2 = k := fun hh => h.1 hh.symm
    simp only [getFields, hne, if_false]
    exact ih h.2

theorem keys_setFields_sub (fs : List (String × JValue)) (k : String) (v : JValue) :
    ∀ k2 ∈ (setFields fs k v).map Prod.fst, k2 = k ∨ k2 ∈ fs.map Prod.fst := by
  induction fs with
  | nil =>
    intro k2 h
    simp [setFields] at h
    exact Or.inl h
  | cons kv rest ih =>
    obtain ⟨k3, v3⟩ := kv
    intro k2 hk2
    by_cases h : k3 = k
    · subst h
      simp [setFields] at hk2
      rcases hk2 with h1 | h2
      · exact Or.inl h1
      · exact Or.inr (by simp [h2])
    · simp only [setFields, h, if_false, List.map_cons, List.mem_cons] at hk2
      rcases hk2 with h1 | h2
      · exact Or.inr (by simp [h1])
      · rcases ih k2 h2 with h3 | h4
        · exact Or.inl h3
        · exact Or.inr (by simp [h4])

theorem nodup_keys_setFields {fs : List (String × JValue)} (k : String) (v : JValue)
    (h : (fs.map Prod.fst).Nodup) : ((setFields fs k v).map Prod.fst).Nodup := by
  induction fs with
  | nil => simp [setFields]
  | cons kv rest ih =>
    obtain ⟨k3, v3⟩ := kv
    rw [List.map_cons, List.nodup_cons] at h
    by_cases hk : k3 = k
    · subst hk
      rw [show setFields ((k3, v3) :: rest) k3 v = (k3, v) :: rest from by simp [setFields]]
      rw [List.map_cons, List.nodup_cons]
      exact h
    · rw [show setFields ((k3, v3) :: rest) k v = (k3, v3) :: setFields rest k v from by
        simp [setFields, hk]]
      rw [List.map_cons, List.nodup_cons]
      refine ⟨fun hmem => ?_, ih h.2⟩
      rcases keys_setFields_sub rest k v k3 hmem with h1 | h2
      · exact hk h1
      · exact h.1 h2

theorem jsSpread_getFields {fs : List (String × JValue)} (base : List (String × JValue))
    (k : String) (h : (fs.map Prod.fst).Nodup) :
    getFields (jsSpread base fs) k =
      match getFields fs k with
      | some v => some v
      | none => getFields base k := by
  induction fs generalizing base with
  | nil => simp [jsSpread, getFields]
  | cons kv rest ih =>
    obtain ⟨k2, v2⟩ := kv
    rw [List.map_cons, List.nodup_cons] at h
    have step : jsSpread base ((k2, v2) :: rest) = jsSpread (setFields base k2 v2) rest := rfl
    rw [step, ih (setFields base k2 v2) h.2]
    by_cases hk : k2 = k
    · subst hk
      have hnone : getFields rest k2 = none := getFields_eq_none h.1
      simp [getFields, hnone, getFields_set_same]
    · have hne2 : k ≠ k2 := fun hh => hk hh.symm
      cases hrest : getFields rest k <;>
        simp [getFields, hk, hrest, getFields_set_other hne2]

theorem getFields_filter_out (fs : List (String × JValue)) (k : String) :
    getFields (fs.filter (fun kv => kv.1 != k)) k = none := by
  induction fs with
  | nil => rfl
  | cons kv rest ih =>
    obtain ⟨k2, v2⟩ := kv
    by_cases h : k2 = k <;> simp [List.filter_cons, getFields, h, ih]

theorem getFields_filter_other (fs : List (String × JValue)) {k k2 : String} (h : k2 ≠ k) :
    getFields (fs.filter (fun kv => kv.1 != k)) k2 = getFields fs k2 := by
  induction fs with
  | nil => rfl
  | cons kv rest ih =>
    obtain ⟨k3, v3⟩ := kv
    have hke : ¬ k = k2 := fun hh => h hh.symm
    by_cases h3 : k3 = k
    · have hne : ¬ k3 = k2 := by
        rw [h3]
        exact hke
      simp [List.filter_cons, getFields, h3, hne, hke, ih]
    · by_cases hk : k3 = k2 <;> simp [List.filter_cons, getFields, h3, hk, h, hke, ih]

/-- `true` when a `registryDependencies` value cannot make a rewriter throw:
any non-array, or an array containing only strings. -/
def depsOK : JValue → Bool
  | .arr xs => xs.all fun x =>
      match x with
      | .str _ => true
      | _ => false
  | _ => true

theorem mapDeps_ok_of_all_str {xs : List JValue} (cb : String → String)
    (h : (xs.all fun x => match x with | .str _ => true | _ => false) = true) :
    ∃ ys, mapDeps cb xs = .ok ys := by
  induction xs with
  | nil => exact ⟨[], rfl⟩
  | cons x rest ih =>
    rw [List.all_cons, Bool.and_eq_true] at h
    obtain ⟨ys, hys⟩ := ih h.2
    cases x <;> simp_all [mapDeps]

theorem transformFlat_ok_of_depsOK {v : JValue} (h : depsOK v = true) :
    ∃ r, transformRegistryDependenciesFlat v = .ok r := by
  cases v <;> try exact ⟨_, rfl⟩
  case arr xs =>
    obtain ⟨ys, hys⟩ := mapDeps_ok_of_all_str rewriteDep (by simpa [depsOK] using h)
    exact ⟨.arr ys, by simp [transformRegistryDependenciesFlat, hys]⟩

theorem mapStrip_ok {fl : List JValue} (h : ∀ f ∈ fl, ∃ efs, f = .obj efs) :
    ∃ gl, mapStrip fl = .ok gl ∧
      List.Forall₂ (fun f g => jget g "content" = none ∧
        ∀ k, k ≠ "content" → jget g k = jget f k) fl gl := by
  induction fl with
  | nil => exact ⟨[], rfl, List.Forall₂.nil⟩
  | cons f rest ih =>
    obtain ⟨efs, rfl⟩ := h f (by simp)
    obtain ⟨gl, hgl, hrel⟩ := ih (fun g hg => h g (by simp [hg]))
    refine ⟨.obj (efs.filter (fun kv => kv.1 != "content")) :: gl, ?_, ?_⟩
    · simp [mapStrip, stripContent, hgl, fieldsOf]
    · refine List.Forall₂.cons ⟨?_, ?_⟩ hrel
      · simp [jget, getFields_filter_out]
      · intro k hk
        simp [jget, getFields_filter_other _ hk]

/-- C2: for every registry item whose `files` attribute is an array of
objects, the per-item descriptor produced by the flat registry builder's
`generateItemJSON` has a `files` list in which, entrywise, no entry carries
a `content` key — whether or not the input entry had one — while every
other attribute of each entry is preserved unchanged, in order.
Hypotheses: the item is an object with duplicate-free keys (true of every
`JSON.parse` result) and its `registryDependencies` value cannot make the
rewriter throw (non-array, or an array of strings). -/
theorem c2_generate_item_strips_content (ifs : List (String × JValue)) (fl : List JValue)
    (hnodup : (ifs.map Prod.fst).Nodup)
    (hfiles : getFields ifs "files" = some (.arr fl))
    (hentries : ∀ f ∈ fl, ∃ efs, f = .obj efs)
    (hrd : depsOK ((getFields ifs "registryDependencies").getD .undefined) = true) :
    ∃ out gl, generateItemJSON (.obj ifs) = .ok out ∧
      jget out "files" = some (.arr gl) ∧
      List.Forall₂ (fun f g =>
        jget g "content" = none ∧
        ∀ k, k ≠ "content" → jget g k = jget f k) fl gl := by
  obtain ⟨gl, hgl, hrel⟩ := mapStrip_ok hentries
  have hspread_rd : getFields (jsSpread [("$schema", .str SCHEMA_ITEM)] ifs)
      "registryDependencies" = getFields ifs "registryDependencies" := by
    rw [jsSpread_getFields _ _ hnodup]
    cases hr : getFields ifs "registryDependencies" <;> simp [getFields]
  have hspread_files : getFields (jsSpread [("$schema", .str SCHEMA_ITEM)] ifs)
      "files" = some (.arr fl) := by
    rw [jsSpread_getFields _ _ hnodup, hfiles]
  set cfs := jsSpread [("$schema", .str SCHEMA_ITEM)] ifs with hcfs
  by_cases htr : truthy ((getFields ifs "registryDependencies").getD .undefined) = true
  · obtain ⟨t, ht⟩ := transformFlat_ok_of_depsOK hrd
    refine ⟨.obj (setFields (setFields cfs "registryDependencies" t) "files" (.arr gl)),
      gl, ?_, ?_, hrel⟩
    · simp only [generateItemJSON, getProp, fieldsOf, exceptOkBind, hspread_rd]
      rw [hspread_rd] at *
      simp only [htr, if_true, ht, exceptOkBind, setProp]
      have : getFields (setFields cfs "registryDependencies" t) "files" = some (.arr fl) := by
        rw [getFields_set_other (by decide) _ _, hspread_files]
      simp only [getProp, this, Option.getD_some, exceptOkBind, hgl, setProp]
    · simp [jget, getFields_set_same]
  · simp only [Bool.not_eq_true] at htr
    refine ⟨.obj (setFields cfs "files" (.arr gl)), gl, ?_, ?_, hrel⟩
    · simp only [generateItemJSON, getProp, fieldsOf, exceptOkBind]
      rw [hspread_rd]
      simp only [htr, if_false, Bool.false_eq_true, exceptOkBind, getProp, hspread_files,
        Option.getD_some, hgl, setProp]
    · simp [jget, getFields_set_same]

theorem c2_generate_item_strips_content_witness :
    ([("name", JValue.str "coderabbit-form"),
      ("files", JValue.arr [.obj [("path", .str "lib/foo.ts"),
        ("content", .str "export const x=1"), ("type", .str "registry:lib")]])].map
          Prod.fst).Nodup ∧
    (∃ out gl, generateItemJSON (.obj [("name", JValue.str "coderabbit-form"),
      ("files", JValue.arr [.obj [("path", .str "lib/foo.ts"),
        ("content", .str "export const x=1"), ("type", .str "registry:lib")]])]) = .ok out ∧
      jget out "files" = some (.arr gl) ∧
      List.Forall₂ (fun f g =>
        jget g "content" = none ∧
        ∀ k, k ≠ "content" → jget g k = jget f k)
        [JValue.obj [("path", .str "lib/foo.ts"), ("content", .str "export const x=1"),
          ("type", .str "registry:lib")]] gl) := by
  refine ⟨by decide, ?_⟩
  exact c2_generate_item_strips_content _ _ (by decide) (by decide)
    (by intro f hf; rw [List.mem_singleton] at hf; exact ⟨_, hf⟩) (by decide)

theorem strStartsWith_append_left {a p : String} (h : strStartsWith a p = true)
    (b : String) : strStartsWith (a ++ b) p = true := by
  unfold strStartsWith at *
  rw [ List.isPrefixOf_iff_prefix] at *
  have : a.toList ++ b.toList = (a ++ b).toList := by
    simp [String.toList, String.data_append]
  rw [← this]
  exact h.trans (List.prefix_append _ _)

theorem rewritten_is_url (s : String) :
    strStartsWith (REGISTRY_BASE_URL ++ "/" ++ s ++ ".json") "https://" = true := by
  have h : strStartsWith (REGISTRY_BASE_URL ++ "/") "https://" = true := by decide
  exact strStartsWith_append_left (strStartsWith_append_left h s) ".json"

theorem rewriteDepPost_idem (s : String) :
    rewriteDepPost (rewriteDepPost s) = rewriteDepPost s := by
  by_cases hu : (strStartsWith s "http://" || strStartsWith s "https://") = true
  · rw [show rewriteDepPost s = s from by simp [rewriteDepPost, hu]]
    simp [rewriteDepPost, hu]
  · by_cases hc : strStartsWith s "coderabbit-" = true
    · rw [show rewriteDepPost s = REGISTRY_BASE_URL ++ "/" ++ s ++ ".json" from by
        simp [rewriteDepPost, hu, hc]]
      simp [rewriteDepPost, rewritten_is_url]
    · rw [show rewriteDepPost s = s from by simp [rewriteDepPost, hu, hc]]
      simp [rewriteDepPost, hu, hc]

theorem mapDeps_post_idem {xs ys : List JValue}
    (h : mapDeps rewriteDepPost xs = .ok ys) :
    mapDeps rewriteDepPost ys = .ok ys := by
  induction xs generalizing ys with
  | nil =>
    have h2 : Except.ok ([] : List JValue) = .ok ys := h
    cases h2
    rfl
  | cons x rest ih =>
    match x with
    | .str s =>
      simp only [mapDeps] at h
      cases hr : mapDeps rewriteDepPost rest with
      | error e => rw [hr] at h; exact Except.noConfusion h
      | ok r =>
        rw [hr] at h
        simp only [Except.ok.injEq] at h
        subst h
        simp only [mapDeps, ih hr, rewriteDepPost_idem]
    | .undefined | .null | .bool _ | .num _ | .arr _ | .obj _ =>
      exact Except.noConfusion h

theorem transformDeps_idem {v w : JValue} (h : transformDeps v = .ok w) :
    transformDeps w = .ok w := by
  cases v with
  | arr xs =>
    simp only [transformDeps] at h
    cases hm : mapDeps rewriteDepPost xs with
    | error e => rw [hm] at h; exact Except.noConfusion h
    | ok ys =>
      rw [hm] at h
      simp only [exceptOkBind, Except.ok.injEq] at h
      subst h
      simp only [transformDeps, mapDeps_post_idem hm, exceptOkBind]
  | undefined | null | bool _ | num _ | str _ | obj _ =>
    simp only [transformDeps, Except.ok.injEq] at h
    subst h
    rfl

theorem transformDeps_shape {v w : JValue} (h : transformDeps v = .ok w) :
    w = v ∨ ∃ xs ys, v = .arr xs ∧ w = .arr ys := by
  cases v with
  | arr xs =>
    simp only [transformDeps] at h
    cases hm : mapDeps rewriteDepPost xs with
    | error e => rw [hm] at h; exact Except.noConfusion h
    | ok ys =>
      rw [hm] at h
      simp only [exceptOkBind, Except.ok.injEq] at h
      exact Or.inr ⟨xs, ys, rfl, h.symm⟩
  | undefined | null | bool _ | num _ | str _ | obj _ =>
    simp only [transformDeps, Except.ok.injEq] at h
    exact Or.inl h.symm

theorem getProp_truthy_obj {v w : JValue} {k : String}
    (h : getProp v k = .ok w) (ht : truthy w = true) :
    ∃ fs, v = .obj fs ∧ getFields fs k = some w := by
  cases v with
  | obj fs =>
    simp only [getProp, Except.ok.injEq] at h
    cases hg : getFields fs k with
    | none => rw [hg] at h; simp at h; rw [← h] at ht; simp [truthy] at ht
    | some u => rw [hg] at h; simp at h; exact ⟨fs, rfl, by rw [hg, h]⟩
  | undefined => simp [getProp] at h
  | null => simp [getProp] at h
  | bool b =>
    simp only [getProp, Except.ok.injEq] at h
    rw [← h] at ht
    simp [truthy] at ht
  | num n =>
    simp only [getProp, Except.ok.injEq] at h
    rw [← h] at ht
    simp [truthy] at ht
  | str s =>
    simp only [getProp, Except.ok.injEq] at h
    rw [← h] at ht
    simp [truthy] at ht
  | arr xs =>
    simp only [getProp, Except.ok.injEq] at h
    rw [← h] at ht
    simp [truthy] at ht

theorem getProp_arr_obj {v : JValue} {k : String} {xs : List JValue}
    (h : getProp v k = .ok (.arr xs)) :
    ∃ fs, v = .obj fs ∧ getFields fs k = some (.arr xs) :=
  getProp_truthy_obj h (by simp [truthy])

/-- A value that survives a property read without a TypeError. -/
def notNullish (v : JValue) : Prop := v ≠ .null ∧ v ≠ .undefined

/-- The document's root `registryDependencies` is a fixed point of the
rewriter (or falsy): the state after a successful `rootStep`. -/
def rdFixed (v : JValue) : Prop :=
  truthy (jprop v "registryDependencies") = false ∨
    transformDeps (jprop v "registryDependencies") = .ok (jprop v "registryDependencies")

theorem getProp_of_notNullish {v : JValue} (k : String) (h : notNullish v) :
    getProp v k = .ok (jprop v k) := by
  cases v <;> simp [getProp, jprop] at h ⊢ <;> simp_all [notNullish]

theorem rootStep_fixed {v : JValue} (h1 : notNullish v) (h2 : rdFixed v) :
    rootStep v = .ok (v, false) := by
  rw [rootStep, getProp_of_notNullish _ h1, exceptOkBind]
  rcases h2 with hf | hfix
  · simp [hf]
  · by_cases ht : truthy (jprop v "registryDependencies") = true
    · simp [ht, hfix, exceptOkBind]
    · simp only [Bool.not_eq_true] at ht
      simp [ht]

theorem rootStep_out {d d1 : JValue} {m : Bool} (h : rootStep d = .ok (d1, m)) :
    notNullish d1 ∧ rdFixed d1 ∧
    (∀ k, k ≠ "registryDependencies" → jget d1 k = jget d k) ∧
    (m = false → d1 = d) ∧ notNullish d ∧
    (m = true → jget d1 "registryDependencies" ≠ jget d "registryDependencies") := by
  have hd : notNullish d := by
    constructor <;> rintro rfl <;> simp [rootStep, getProp] at h
  rw [rootStep, getProp_of_notNullish _ hd, exceptOkBind] at h
  by_cases ht : truthy (jprop d "registryDependencies") = true
  · rw [if_pos ht] at h
    cases htr : transformDeps (jprop d "registryDependencies") with
    | error e => rw [htr] at h; exact Except.noConfusion h
    | ok t =>
      rw [htr, exceptOkBind] at h
      by_cases hne : t ≠ jprop d "registryDependencies"
      · rw [if_pos hne] at h
        simp only [Except.ok.injEq, Prod.mk.injEq] at h
        obtain ⟨hd1, hm⟩ := h
        obtain ⟨fs, rfl, hget⟩ := getProp_truthy_obj (getProp_of_notNullish _ hd) ht
        have hjp : jprop (JValue.obj fs) "registryDependencies" =
            (getFields fs "registryDependencies").getD .undefined := rfl
        subst hd1
        refine ⟨by simp [setProp, notNullish], ?_, ?_, ?_, hd, ?_⟩
        · right
          have : jprop (setProp (JValue.obj fs) "registryDependencies" t)
              "registryDependencies" = t := by
            simp [setProp, jprop, getFields_set_same]
          rw [this]
          exact transformDeps_idem htr
        · intro k hk
          simp [setProp, jget, getFields_set_other hk]
        · intro hmf
          rw [← hm] at hmf
          simp at hmf
        · intro _
          rw [show jget (setProp (JValue.obj fs) "registryDependencies" t)
              "registryDependencies" = some t from by
            simp [setProp, jget, getFields_set_same]]
          rw [show jget (JValue.obj fs) "registryDependencies" =
              some (jprop (JValue.obj fs) "registryDependencies") from by
            simp [jget, hget]]
          simp [hne]
      · rw [if_neg hne] at h
        simp only [Except.ok.injEq, Prod.mk.injEq] at h
        obtain ⟨hd1, hm⟩ := h
        subst hd1
        push_neg at hne
        refine ⟨hd, Or.inr ?_, fun k _ => rfl, fun _ => rfl, hd, ?_⟩
        · rw [← hne] at htr ⊢
          exact transformDeps_idem htr
        · intro hmt
          rw [← hm] at hmt
          exact absurd hmt (by simp)
  · rw [if_neg ht] at h
    simp only [Except.ok.injEq, Prod.mk.injEq] at h
    obtain ⟨hd1, hm⟩ := h
    subst hd1
    simp only [Bool.not_eq_true] at ht
    refine ⟨hd, Or.inl ht, fun k _ => rfl, fun _ => rfl, hd, ?_⟩
    intro hmt
    rw [← hm] at hmt
    exact absurd hmt (by simp)

theorem processItem_idem {item y : JValue} {m : Bool}
    (h : processItem item = .ok (y, m)) : processItem y = .ok (y, false) := by
  have hni : notNullish item := by
    constructor <;> rintro rfl <;> simp [processItem, getProp] at h
  rw [processItem, getProp_of_notNullish _ hni, exceptOkBind] at h
  by_cases ht : truthy (jprop item "registryDependencies") = true
  · rw [if_pos ht] at h
    cases htr : transformDeps (jprop item "registryDependencies") with
    | error e => rw [htr] at h; exact Except.noConfusion h
    | ok t =>
      rw [htr, exceptOkBind] at h
      by_cases hne : t ≠ jprop item "registryDependencies"
      · rw [if_pos hne] at h
        simp only [Except.ok.injEq, Prod.mk.injEq] at h
        obtain ⟨hy, _⟩ := h
        obtain ⟨ifs, rfl, hget⟩ := getProp_truthy_obj (getProp_of_notNullish _ hni) ht
        have htt : truthy t = true := by
          rcases transformDeps_shape htr with heq | ⟨xs, ys, hxs, hys⟩
          · exact absurd heq hne
          · rw [hys]; simp [truthy]
        have hyobj : y = .obj (setFields ifs "registryDependencies" t) := by
          rw [← hy]; rfl
        have hget2 : getProp y "registryDependencies" = .ok t := by
          rw [hyobj]
          simp [getProp, getFields_set_same]
        rw [processItem, hget2, exceptOkBind, if_pos htt, transformDeps_idem htr,
          exceptOkBind, if_neg (by simp)]
      · rw [if_neg hne] at h
        simp only [Except.ok.injEq, Prod.mk.injEq] at h
        obtain ⟨hy, _⟩ := h
        subst hy
        push_neg at hne
        rw [processItem, getProp_of_notNullish _ hni, exceptOkBind, if_pos ht, htr,
          exceptOkBind, if_neg (by simp [hne])]
  · rw [if_neg ht] at h
    simp only [Except.ok.injEq, Prod.mk.injEq] at h
    obtain ⟨hy, _⟩ := h
    subst hy
    rw [processItem, getProp_of_notNullish _ hni, exceptOkBind, if_neg ht]

theorem processItems_idem {xs ys : List JValue} {m : Bool}
    (h : processItems xs = .ok (ys, m)) : processItems ys = .ok (ys, false) := by
  induction xs generalizing ys m with
  | nil =>
    simp only [processItems, Except.ok.injEq, Prod.mk.injEq] at h
    rw [← h.1]
    rfl
  | cons x rest ih =>
    rw [processItems] at h
    cases hx : processItem x with
    | error e => rw [hx] at h; exact Except.noConfusion h
    | ok ym =>
      rw [hx, exceptOkBind] at h
      cases hr : processItems rest with
      | error e => rw [hr] at h; exact Except.noConfusion h
      | ok rm =>
        rw [hr, exceptOkBind] at h
        simp only [Except.ok.injEq, Prod.mk.injEq] at h
        obtain ⟨hys, _⟩ := h
        obtain ⟨y1, m1⟩ := ym
        obtain ⟨r1, m2⟩ := rm
        rw [← hys]
        rw [processItems, processItem_idem hx, exceptOkBind, ih hr, exceptOkBind]
        rfl

theorem setProp_preserves_notNullish {v : JValue} (k : String) (w : JValue)
    (h : notNullish v) : notNullish (setProp v k w) := by
  cases v <;> simp_all [setProp, notNullish]

theorem jprop_setProp_other {v : JValue} {k k2 : String} (w : JValue)
    (h : k2 ≠ k) : jprop (setProp v k w) k2 = jprop v k2 := by
  cases v <;> simp [setProp, jprop, getFields_set_other h]

/-- C3: `processFile` is idempotent — applying the per-file transformation to
a document that is the result of a previous (successful) application
returns that document unchanged and reports it unmodified; hence a second
transformer run over its own output rewrites no file. -/
theorem c3_processFile_idempotent {d d1 : JValue} {m : Bool}
    (h : processFile d = .ok (d1, m)) : processFile d1 = .ok (d1, false) := by
  rw [processFile] at h
  cases hroot : rootStep d with
  | error e => rw [hroot] at h; exact Except.noConfusion h
  | ok s1 =>
    rw [hroot, exceptOkBind] at h
    obtain ⟨hnn, hfix, hframe, hunch, _, _⟩ := rootStep_out hroot
    cases hitems : getProp s1.1 "items" with
    | error e => rw [hitems] at h; exact Except.noConfusion h
    | ok iv =>
      rw [hitems, exceptOkBind] at h
      match hiv : iv with
      | .arr xs =>
        replace h : (do
            let ysm ← processItems xs
            (.ok (setProp s1.1 "items" (.arr ysm.1), s1.2 || ysm.2) :
              Except Unit (JValue × Bool))) = .ok (d1, m) := h
        cases hpi : processItems xs with
        | error e => rw [hpi] at h; exact Except.noConfusion h
        | ok ysm =>
          rw [hpi, exceptOkBind] at h
          simp only [Except.ok.injEq, Prod.mk.injEq] at h
          obtain ⟨hd1, _⟩ := h
          obtain ⟨s1fs, hs1, hs1get⟩ := getProp_arr_obj hitems
          have hd1v : d1 = .obj (setFields s1fs "items" (.arr ysm.1)) := by
            rw [← hd1, hs1]
            rfl
          have hnn1 : notNullish d1 := by rw [hd1v]; exact ⟨by simp, by simp⟩
          have hfix1 : rdFixed d1 := by
            have : jprop d1 "registryDependencies" = jprop s1.1 "registryDependencies" := by
              rw [← hd1]
              exact jprop_setProp_other _ (by decide)
            rw [rdFixed, this]
            exact hfix
          rw [processFile, rootStep_fixed hnn1 hfix1, exceptOkBind]
          have hitems1 : getProp d1 "items" = .ok (.arr ysm.1) := by
            rw [hd1v]
            simp [getProp, getFields_set_same]
          rw [hitems1, exceptOkBind]
          show (do
              let y2 ← processItems ysm.1
              (.ok (setProp d1 "items" (.arr y2.1), false || y2.2) :
                Except Unit (JValue × Bool))) = .ok (d1, false)
          rw [processItems_idem hpi, exceptOkBind]
          have hcollapse : setProp d1 "items" (.arr ysm.1) = d1 := by
            rw [hd1v]
            simp [setProp, setFields_set_same]
          rw [hcollapse]
          rfl
      | .undefined | .null | .bool _ | .num _ | .str _ | .obj _ =>
        replace h : (.ok s1 : Except Unit (JValue × Bool)) = .ok (d1, m) := h
        simp only [Except.ok.injEq] at h
        have hd1 : s1.1 = d1 := by rw [h]
        rw [← hd1]
        rw [processFile, rootStep_fixed hnn hfix, exceptOkBind, hitems, exceptOkBind]

theorem c3_processFile_idempotent_witness :
    processFile (.obj [("registryDependencies", jstrArr ["button", "coderabbit-types"])]) =
      .ok (.obj [("registryDependencies",
        jstrArr ["button",
          "https://raw.githubusercontent.com/RMNCLDYO/coderabbit-shadcn-registry/main/public/r/coderabbit-types.json"])],
        true) ∧
    processFile (.obj [("registryDependencies",
        jstrArr ["button",
          "https://raw.githubusercontent.com/RMNCLDYO/coderabbit-shadcn-registry/main/public/r/coderabbit-types.json"])]) =
      .ok (.obj [("registryDependencies",
        jstrArr ["button",
          "https://raw.githubusercontent.com/RMNCLDYO/coderabbit-shadcn-registry/main/public/r/coderabbit-types.json"])],
        false) :=
  ⟨by decide,
   @c3_processFile_idempotent
     (.obj [("registryDependencies", jstrArr ["button", "coderabbit-types"])])
     (.obj [("registryDependencies",
       jstrArr ["button",
         "https://raw.githubusercontent.com/RMNCLDYO/coderabbit-shadcn-registry/main/public/r/coderabbit-types.json"])])
     true (by decide)⟩

theorem jget_setProp_other {v : JValue} {k k2 : String} (w : JValue) (h : k2 ≠ k) :
    jget (setProp v k w) k2 = jget v k2 := by
  cases v <;> simp [setProp, jget, getFields_set_other h]

theorem jget_setProp_same {fs : List (String × JValue)} (k : String) (w : JValue) :
    jget (setProp (.obj fs) k w) k = some w := by
  simp [setProp, jget, getFields_set_same]

theorem processItem_out {item y : JValue} {mi : Bool}
    (h : processItem item = .ok (y, mi)) :
    (∀ k, k ≠ "registryDependencies" → jget y k = jget item k) ∧
    (mi = false → y = item) ∧ (mi = true → y ≠ item) := by
  have hni : notNullish item := by
    constructor <;> rintro rfl <;> simp [processItem, getProp] at h
  rw [processItem, getProp_of_notNullish _ hni, exceptOkBind] at h
  by_cases ht : truthy (jprop item "registryDependencies") = true
  · rw [if_pos ht] at h
    cases htr : transformDeps (jprop item "registryDependencies") with
    | error e => rw [htr] at h; exact Except.noConfusion h
    | ok t =>
      rw [htr, exceptOkBind] at h
      by_cases hne : t ≠ jprop item "registryDependencies"
      · rw [if_pos hne] at h
        simp only [Except.ok.injEq, Prod.mk.injEq] at h
        obtain ⟨hy, hm⟩ := h
        obtain ⟨ifs, rfl, hget⟩ := getProp_truthy_obj (getProp_of_notNullish _ hni) ht
        have hyv : y = .obj (setFields ifs "registryDependencies" t) := by
          rw [← hy]
          rfl
        refine ⟨?_, ?_, ?_⟩
        · intro k hk
          rw [hyv]
          simp [jget, getFields_set_other hk]
        · intro hmf
          rw [← hm] at hmf
          simp at hmf
        · intro _ hEq
          have h1 : jget y "registryDependencies" = some t := by
            rw [hyv]
            simp [jget, getFields_set_same]
          have h2 : jget (JValue.obj ifs) "registryDependencies" =
              some (jprop (JValue.obj ifs) "registryDependencies") := by
            simp [jget, hget]
          rw [hEq, h2] at h1
          exact hne (by injection h1 with h3; exact h3.symm)
      · rw [if_neg hne] at h
        simp only [Except.ok.injEq, Prod.mk.injEq] at h
        obtain ⟨hy, hm⟩ := h
        subst hy
        refine ⟨fun k _ => rfl, fun _ => rfl, ?_⟩
        intro hmt
        rw [← hm] at hmt
        exact absurd hmt (by simp)
  · rw [if_neg ht] at h
    simp only [Except.ok.injEq, Prod.mk.injEq] at h
    obtain ⟨hy, hm⟩ := h
    subst hy
    refine ⟨fun k _ => rfl, fun _ => rfl, ?_⟩
    intro hmt
    rw [← hm] at hmt
    exact absurd hmt (by simp)

theorem processItems_out {xs ys : List JValue} {m2 : Bool}
    (h : processItems xs = .ok (ys, m2)) :
    List.Forall₂ (fun x y => ∀ k, k ≠ "registryDependencies" → jget y k = jget x k) xs ys ∧
    (m2 = false → ys = xs) ∧ (m2 = true → ys ≠ xs) := by
  induction xs generalizing ys m2 with
  | nil =>
    replace h : (.ok (([] : List JValue), false) : Except Unit (List JValue × Bool)) =
      .ok (ys, m2) := h
    simp only [Except.ok.injEq, Prod.mk.injEq] at h
    obtain ⟨hys, hm⟩ := h
    subst hys
    refine ⟨List.Forall₂.nil, fun _ => rfl, ?_⟩
    intro hmt
    rw [← hm] at hmt
    exact absurd hmt (by simp)
  | cons x rest ih =>
    rw [processItems] at h
    cases hx : processItem x with
    | error e => rw [hx] at h; exact Except.noConfusion h
    | ok ym =>
      rw [hx, exceptOkBind] at h
      cases hr : processItems rest with
      | error e => rw [hr] at h; exact Except.noConfusion h
      | ok rm =>
        rw [hr, exceptOkBind] at h
        simp only [Except.ok.injEq, Prod.mk.injEq] at h
        obtain ⟨hys, hm⟩ := h
        obtain ⟨hframe1, hunch1, hdiff1⟩ := processItem_out hx
        obtain ⟨hframe2, hunch2, hdiff2⟩ := ih hr
        subst hys
        refine ⟨List.Forall₂.cons hframe1 hframe2, ?_, ?_⟩
        · intro hmf
          rw [← hm] at hmf
          rw [Bool.or_eq_false_iff] at hmf
          rw [hunch1 hmf.1, hunch2 hmf.2]
        · intro hmt
          rw [← hm, Bool.or_eq_true] at hmt
          rcases hmt with h1 | h2
          · intro hco
            rw [List.cons.injEq] at hco
            exact hdiff1 h1 hco.1
          · intro hco
            rw [List.cons.injEq] at hco
            exact hdiff2 h2 hco.2

/-- C7: frame property of the post-build transformer's `processFile` — only
the `registryDependencies` field at the document root and inside each
element of the `items` list can change (every other field of the document,
and every other attribute of each items element, is preserved), and the
file is written back (`modified = true`) exactly when at least one value
actually changed under structural comparison. -/
theorem c7_processFile_frame {d d1 : JValue} {m : Bool}
    (h : processFile d = .ok (d1, m)) :
    (m = true ↔ d1 ≠ d) ∧
    (∀ k, k ≠ "registryDependencies" → k ≠ "items" → jget d1 k = jget d k) ∧
    (match jget d "items", jget d1 "items" with
     | some (.arr xs), some (.arr ys) =>
         List.Forall₂ (fun x y => ∀ k, k ≠ "registryDependencies" → jget y k = jget x k) xs ys
     | i0, i1 => i1 = i0) := by
  rw [processFile] at h
  cases hroot : rootStep d with
  | error e => rw [hroot] at h; exact Except.noConfusion h
  | ok s1 =>
    rw [hroot, exceptOkBind] at h
    obtain ⟨hnn, hfix, hframe, hunch, hnnd, hdiff⟩ := rootStep_out hroot
    cases hitems : getProp s1.1 "items" with
    | error e => rw [hitems] at h; exact Except.noConfusion h
    | ok iv =>
      rw [hitems, exceptOkBind] at h
      match hiv : iv with
      | .arr xs =>
        replace h : (do
            let ysm ← processItems xs
            (.ok (setProp s1.1 "items" (.arr ysm.1), s1.2 || ysm.2) :
              Except Unit (JValue × Bool))) = .ok (d1, m) := h
        cases hpi : processItems xs with
        | error e => rw [hpi] at h; exact Except.noConfusion h
        | ok ysm =>
          rw [hpi, exceptOkBind] at h
          simp only [Except.ok.injEq, Prod.mk.injEq] at h
          obtain ⟨hd1, hm⟩ := h
          obtain ⟨s1fs, hs1, hs1get⟩ := getProp_arr_obj hitems
          obtain ⟨hitemsrel, hitemsunch, hitemsdiff⟩ := processItems_out hpi
          have hd_items : jget d "items" = some (.arr xs) := by
            rw [← hframe "items" (by decide), hs1]
            simp [jget, hs1get]
          have hd1_items : jget d1 "items" = some (.arr ysm.1) := by
            rw [← hd1, hs1]
            exact jget_setProp_same _ _
          refine ⟨?_, ?_, ?_⟩
          · constructor
            · intro hmt hco
              rw [← hm, Bool.or_eq_true] at hmt
              rcases hmt with h1 | h2
              · have hx := hdiff h1
                have : jget d1 "registryDependencies" = jget s1.1 "registryDependencies" := by
                  rw [← hd1]
                  exact jget_setProp_other _ (by decide)
                rw [hco] at this
                exact hx (by rw [← this])
              · have hys := hitemsdiff h2
                rw [hco] at hd1_items
                rw [hd_items] at hd1_items
                simp only [Option.some.injEq, JValue.arr.injEq] at hd1_items
                exact hys hd1_items.symm
            · intro hne
              by_contra hmf
              simp only [Bool.not_eq_true] at hmf
              rw [← hm, Bool.or_eq_false_iff] at hmf
              have hs1d : s1.1 = d := hunch hmf.1
              have hysxs : ysm.1 = xs := hitemsunch hmf.2
              apply hne
              rw [← hd1, hysxs, hs1d]
              obtain ⟨dfs, hdv, hdget⟩ := getProp_arr_obj (hs1d ▸ hitems)
              rw [hdv]
              simp [setProp, setFields_of_getFields hdget]
          · intro k hk1 hk2
            rw [← hd1, jget_setProp_other _ hk2]
            exact hframe k hk1
          · rw [hd_items, hd1_items]
            exact hitemsrel
      | .undefined | .null | .bool _ | .num _ | .str _ | .obj _ =>
        replace h : (.ok s1 : Except Unit (JValue × Bool)) = .ok (d1, m) := h
        simp only [Except.ok.injEq] at h
        have hd1 : s1.1 = d1 := by rw [h]
        have hmm : s1.2 = m := by rw [h]
        have hsame : jget d1 "items" = jget d "items" := by
          rw [← hd1]
          exact hframe "items" (by decide)
        refine ⟨?_, ?_, ?_⟩
        · constructor
          · intro hmt hco
            rw [← hmm] at hmt
            exact hdiff hmt (by rw [hd1, hco])
          · intro hne
            by_contra hmf
            simp only [Bool.not_eq_true] at hmf
            rw [← hmm] at hmf
            exact hne (by rw [← hd1, hunch hmf])
        · intro k hk1 _
          rw [← hd1]
          exact hframe k hk1
        · rw [hsame]
          cases hdi : jget d "items" with
          | none => rfl
          | some v =>
            match v with
            | .arr zs =>
              show List.Forall₂ (fun x y => ∀ k, k ≠ "registryDependencies" →
                jget y k = jget x k) zs zs
              rw [List.forall₂_same]
              intro x _ k _
              rfl
            | .undefined | .null | .bool _ | .num _ | .str _ | .obj _ => rfl

theorem c7_processFile_frame_witness :
    processFile (.obj [("name", .str "x"),
        ("registryDependencies", jstrArr ["coderabbit-form"]),
        ("extra", .num 1)]) =
      .ok (.obj [("name", .str "x"),
        ("registryDependencies",
          jstrArr ["https://raw.githubusercontent.com/RMNCLDYO/coderabbit-shadcn-registry/main/public/r/coderabbit-form.json"]),
        ("extra", .num 1)], true) ∧
    ((true = true ↔ (JValue.obj [("name", .str "x"),
        ("registryDependencies",
          jstrArr ["https://raw.githubusercontent.com/RMNCLDYO/coderabbit-shadcn-registry/main/public/r/coderabbit-form.json"]),
        ("extra", .num 1)]) ≠ (.obj [("name", .str "x"),
        ("registryDependencies", jstrArr ["coderabbit-form"]),
        ("extra", .num 1)])) ∧
      (∀ k, k ≠ "registryDependencies" → k ≠ "items" →
        jget (.obj [("name", .str "x"),
          ("registryDependencies",
            jstrArr ["https://raw.githubusercontent.com/RMNCLDYO/coderabbit-shadcn-registry/main/public/r/coderabbit-form.json"]),
          ("extra", .num 1)]) k =
        jget (.obj [("name", .str "x"),
          ("registryDependencies", jstrArr ["coderabbit-form"]),
          ("extra", .num 1)]) k)) := by
  have h0 : processFile (.obj [("name", .str "x"),
      ("registryDependencies", jstrArr ["coderabbit-form"]),
      ("extra", .num 1)]) =
    .ok (.obj [("name", .str "x"),
      ("registryDependencies",
        jstrArr ["https://raw.githubusercontent.com/RMNCLDYO/coderabbit-shadcn-registry/main/public/r/coderabbit-form.json"]),
      ("extra", .num 1)], true) := by decide
  have h1 := c7_processFile_frame h0
  exact ⟨h0, h1.1, h1.2.1⟩

theorem foldl_count_le {α : Type} (Q : α → Bool) (l : List α) (a : Nat) :
    (l.foldl (fun n f => if Q f then n + 1 else n) a) ≤ a + l.length := by
  induction l generalizing a with
  | nil => simp
  | cons x rest ih =>
    simp only [List.foldl_cons, List.length_cons]
    by_cases h : Q x
    · rw [if_pos h]
      exact le_trans (ih (a + 1)) (by omega)
    · rw [if_neg h]
      exact le_trans (ih a) (by omega)

/-- C8 counterexample: an `fs.readdirSync` failure during directory
enumeration (`findJsonFiles` on a subdirectory of the output root) happens
outside every try/catch, so it aborts the whole run — refuting the claim
that no error anywhere in the run, directory enumeration included, is
fatal. -/
theorem c8_counterexample :
    mainRun (.dir "r" [.dir "bundles" [] false] true) (fun _ => true) = .error () := by
  decide

/-- C8 amended: a read, parse, transform or write error on a single file is
caught by `processFile`'s try/catch and only skips that file — the scan
continues, the run completes and reports a transformed count of at most the
number of enumerated files — provided the directory enumeration itself
succeeds; an enumeration error, by contrast, is fatal to the run. -/
theorem c8_per_file_errors_nonfatal (t : FTree) (w : String → Bool)
    (fs : List (String × Option JValue))
    (h : findJsonFiles "public/r" t = .ok fs) :
    ∃ n, mainRun t w = .ok n ∧ n ≤ fs.length := by
  rw [mainRun, h, exceptOkBind]
  exact ⟨_, rfl, le_trans (foldl_count_le _ fs 0) (by omega)⟩

theorem c8_per_file_errors_nonfatal_witness :
    findJsonFiles "public/r" (.dir "r" [.file "bad.json" none,
        .file "a.json" (some (.obj [("registryDependencies", jstrArr ["coderabbit-x"])]))]
        true) =
      .ok [("public/r/bad.json", none),
           ("public/r/a.json", some (.obj [("registryDependencies", jstrArr ["coderabbit-x"])]))] ∧
    (∃ n, mainRun (.dir "r" [.file "bad.json" none,
        .file "a.json" (some (.obj [("registryDependencies", jstrArr ["coderabbit-x"])]))]
        true) (fun _ => true) = .ok n ∧
      n ≤ [("public/r/bad.json", (none : Option JValue)),
           ("public/r/a.json", some (.obj [("registryDependencies", jstrArr ["coderabbit-x"])]))].length) :=
  ⟨by decide, c8_per_file_errors_nonfatal _ _ _ (by decide)⟩

/-- Sufficient well-formedness of a registry item for the flat builder to
process it without a JavaScript exception: an object with duplicate-free
keys (true of every `JSON.parse` result), whose `registryDependencies` (if
any) cannot make the rewriter throw, and whose `files` (when an array)
holds only objects with a string `path`. -/
def itemOK : JValue → Bool
  | .obj ifs =>
      decide ((ifs.map Prod.fst).Nodup) &&
      depsOK ((getFields ifs "registryDependencies").getD .undefined) &&
      (match getFields ifs "files" with
       | some (.arr fl) => fl.all fun f =>
           match f with
           | .obj efs =>
               (match getFields efs "path" with
                | some (.str _) => true
                | _ => false)
           | _ => false
       | _ => true)
  | _ => false

theorem spread_schema_get (ifs : List (String × JValue)) (k : String)
    (hk : k ≠ "$schema") (h : (ifs.map Prod.fst).Nodup) :
    getFields (jsSpread [("$schema", .str SCHEMA_ITEM)] ifs) k = getFields ifs k := by
  rw [jsSpread_getFields _ _ h]
  cases hr : getFields ifs k with
  | some v => rfl
  | none =>
    have hne : ¬ "$schema" = k := fun hh => hk hh.symm
    simp [getFields, hne]

theorem itemOK_files_entries {ifs : List (String × JValue)} {fl : List JValue}
    (h : itemOK (.obj ifs) = true) (hf : getFields ifs "files" = some (.arr fl)) :
    ∀ f ∈ fl, ∃ efs, f = .obj efs ∧ ∃ s, getFields efs "path" = some (.str s) := by
  simp only [itemOK, Bool.and_eq_true] at h
  obtain ⟨_, hfiles⟩ := h
  rw [hf] at hfiles
  intro f hmem
  rw [List.all_eq_true] at hfiles
  have := hfiles f hmem
  match f with
  | .obj efs =>
    refine ⟨efs, rfl, ?_⟩
    have h2 : (match getFields efs "path" with
        | some (JValue.str _) => true
        | _ => false) = true := this
    cases hp : getFields efs "path" with
    | none => rw [hp] at h2; exact absurd h2 (by simp)
    | some pv =>
      rw [hp] at h2
      match pv with
      | .str s => exact ⟨s, rfl⟩
      | .undefined | .null | .bool _ | .num _ | .arr _ | .obj _ => exact absurd h2 (by simp)
  | .undefined | .null | .bool _ | .num _ | .str _ | .arr _ => exact absurd this (by simp)

theorem generateItemJSON_ok {item : JValue} (h : itemOK item = true) :
    ∃ out, generateItemJSON item = .ok out := by
  match item with
  | .obj ifs =>
    have hsplit := h
    simp only [itemOK, Bool.and_eq_true, decide_eq_true_eq] at hsplit
    obtain ⟨⟨hnodup, hdeps⟩, _⟩ := hsplit
    obtain ⟨t, ht⟩ := transformFlat_ok_of_depsOK hdeps
    have hrdget : getFields (jsSpread [("$schema", .str SCHEMA_ITEM)] ifs)
        "registryDependencies" = getFields ifs "registryDependencies" :=
      spread_schema_get ifs _ (by decide) hnodup
    have hfget : getFields (jsSpread [("$schema", .str SCHEMA_ITEM)] ifs)
        "files" = getFields ifs "files" :=
      spread_schema_get ifs _ (by decide) hnodup
    by_cases htr : truthy ((getFields ifs "registryDependencies").getD .undefined) = true
    · have hfget1 : getFields (setFields (jsSpread [("$schema", .str SCHEMA_ITEM)] ifs)
          "registryDependencies" t) "files" = getFields ifs "files" := by
        rw [getFields_set_other (by decide), hfget]
      cases hf : getFields ifs "files" with
      | some fv =>
        rcases fv with _ | _ | b | n | s | fl | fs2 <;>
          try (apply Exists.intro;
               simp only [generateItemJSON, fieldsOf, getProp, hrdget, exceptOkBind, htr,
                 if_true, ht, setProp, hfget1, hf, Option.getD_some];
               rfl)
        obtain ⟨gl, hgl, _⟩ := mapStrip_ok (fun f hmem => by
          obtain ⟨efs, heq, _⟩ := itemOK_files_entries h hf f hmem
          exact ⟨efs, heq⟩)
        apply Exists.intro
        simp only [generateItemJSON, fieldsOf, getProp, hrdget, exceptOkBind, htr, if_true,
          ht, setProp, hfget1, hf, Option.getD_some, hgl]
        rfl
      | none =>
        apply Exists.intro
        simp only [generateItemJSON, fieldsOf, getProp, hrdget, exceptOkBind, htr, if_true,
          ht, setProp, hfget1, hf, Option.getD_none]
        rfl
    · simp only [Bool.not_eq_true] at htr
      cases hf : getFields ifs "files" with
      | some fv =>
        rcases fv with _ | _ | b | n | s | fl | fs2 <;>
          try (apply Exists.intro;
               simp only [generateItemJSON, fieldsOf, getProp, hrdget, exceptOkBind, htr,
                 Bool.false_eq_true, if_false, hfget, hf, Option.getD_some];
               rfl)
        obtain ⟨gl, hgl, _⟩ := mapStrip_ok (fun f hmem => by
          obtain ⟨efs, heq, _⟩ := itemOK_files_entries h hf f hmem
          exact ⟨efs, heq⟩)
        apply Exists.intro
        simp only [generateItemJSON, fieldsOf, getProp, hrdget, exceptOkBind, htr,
          Bool.false_eq_true, if_false, hfget, hf, Option.getD_some, hgl, setProp]
        rfl
      | none =>
        apply Exists.intro
        simp only [generateItemJSON, fieldsOf, getProp, hrdget, exceptOkBind, htr,
          Bool.false_eq_true, if_false, hfget, hf, Option.getD_none]
        rfl

theorem copyLoop_ok {fl : List JValue} (ex : String → Bool)
    (h : ∀ f ∈ fl, ∃ efs, f = .obj efs ∧ ∃ s, getFields efs "path" = some (.str s)) :
    ∃ cs, copyLoop fl ex = .ok cs := by
  induction fl with
  | nil => exact ⟨[], rfl⟩
  | cons f rest ih =>
    obtain ⟨efs, rfl, s, hs⟩ := h f (by simp)
    obtain ⟨cs, hcs⟩ := ih (fun g hg => h g (by simp [hg]))
    refine ⟨if ex s then s :: cs else cs, ?_⟩
    have hgp : getProp (JValue.obj efs) "path" = .ok (.str s) := by simp [getProp, hs]
    rw [copyLoop, hgp, exceptOkBind, hcs]
    by_cases hex : ex s <;> simp [hex]

theorem copySourceFiles_ok {item : JValue} (h : itemOK item = true) (ex : String → Bool) :
    ∃ cs, copySourceFiles item ex = .ok cs := by
  match item with
  | .obj ifs =>
    have hgp : getProp (JValue.obj ifs) "files" =
        .ok ((getFields ifs "files").getD .undefined) := rfl
    cases hf : getFields ifs "files" with
    | some fv =>
      rcases fv with _ | _ | b | n | s | fl | fs2
      · exact ⟨[], by rw [copySourceFiles, hgp, hf, Option.getD_some, exceptOkBind]⟩
      · exact ⟨[], by rw [copySourceFiles, hgp, hf, Option.getD_some, exceptOkBind]⟩
      · exact ⟨[], by rw [copySourceFiles, hgp, hf, Option.getD_some, exceptOkBind]⟩
      · exact ⟨[], by rw [copySourceFiles, hgp, hf, Option.getD_some, exceptOkBind]⟩
      · exact ⟨[], by rw [copySourceFiles, hgp, hf, Option.getD_some, exceptOkBind]⟩
      · obtain ⟨cs, hcs⟩ := copyLoop_ok ex (itemOK_files_entries h hf)
        exact ⟨cs, by
          rw [copySourceFiles, hgp, hf, Option.getD_some, exceptOkBind]
          exact hcs⟩
      · exact ⟨[], by rw [copySourceFiles, hgp, hf, Option.getD_some, exceptOkBind]⟩
    | none =>
      refine ⟨[], ?_⟩
      rw [copySourceFiles, hgp, hf, Option.getD_none, exceptOkBind]

theorem flatLoop_ok {xs : List JValue} (ex : String → Bool)
    (h : ∀ item ∈ xs, itemOK item = true) :
    ∃ ws cs, flatLoop xs ex = .ok (ws, cs) ∧
      ws.map Prod.fst =
        (xs.filter (fun i => truthy (jprop i "name"))).map
          (fun i => jsToString (jprop i "name") ++ ".json") := by
  induction xs with
  | nil => exact ⟨[], [], rfl, rfl⟩
  | cons item rest ih =>
    obtain ⟨ws, cs, hws, hmap⟩ := ih (fun i hi => h i (by simp [hi]))
    have hobj : ∃ ifs, item = .obj ifs := by
      have hi := h item (by simp)
      match item with
      | .obj ifs => exact ⟨ifs, rfl⟩
      | .undefined | .null | .bool _ | .num _ | .str _ | .arr _ => exact absurd hi (by simp [itemOK])
    obtain ⟨ifs, rfl⟩ := hobj
    have hgp : getProp (.obj ifs) "name" = .ok (jprop (.obj ifs) "name") := rfl
    by_cases ht : truthy (jprop (.obj ifs) "name") = true
    · obtain ⟨out, hout⟩ := generateItemJSON_ok (h (.obj ifs) (by simp))
      obtain ⟨cps, hcps⟩ := copySourceFiles_ok (h (.obj ifs) (by simp)) ex
      refine ⟨(jsToString (jprop (.obj ifs) "name") ++ ".json", jnorm out) :: ws,
        cps ++ cs, ?_, ?_⟩
      · rw [flatLoop, hgp, exceptOkBind, if_pos ht, hout, exceptOkBind, hcps, exceptOkBind,
          hws, exceptOkBind]
      · simp only [List.filter_cons, ht, if_true, List.map_cons, List.map_cons, hmap]
    · refine ⟨ws, cs, ?_, ?_⟩
      · rw [flatLoop, hgp, exceptOkBind, if_neg ht]
        exact hws
      · simp only [List.filter_cons, ht, Bool.false_eq_true, if_false, hmap]

theorem consolidateItems_ok {xs : List JValue}
    (h : ∀ item ∈ xs, itemOK item = true) :
    ∃ ys, consolidateItems xs = .ok ys := by
  induction xs with
  | nil => exact ⟨[], rfl⟩
  | cons item rest ih =>
    obtain ⟨ys, hys⟩ := ih (fun i hi => h i (by simp [hi]))
    have hi := h item (by simp)
    match item with
    | .obj ifs =>
      simp only [itemOK, Bool.and_eq_true, decide_eq_true_eq] at hi
      obtain ⟨⟨_, hdeps⟩, _⟩ := hi
      obtain ⟨t, ht⟩ := transformFlat_ok_of_depsOK hdeps
      refine ⟨.obj (setFields (fieldsOf (.obj ifs)) "registryDependencies" t) :: ys, ?_⟩
      rw [consolidateItems]
      have hgp : getProp (JValue.obj ifs) "registryDependencies" =
          .ok ((getFields ifs "registryDependencies").getD .undefined) := rfl
      rw [hgp, exceptOkBind, ht, exceptOkBind, hys, exceptOkBind]
    | .undefined | .null | .bool _ | .num _ | .str _ | .arr _ => exact absurd hi (by simp [itemOK])

/-- C9: every input item of the flat registry builder lacking a (truthy)
`name` is skipped — no per-item descriptor file is written for it,
processing continues with the remaining items — and the run still
completes successfully (exit code 0), writing exactly one `<name>.json`
per named item, in input order, followed by the consolidated
`registry.json`. -/
theorem c9_nameless_items_skipped (rfs : List (String × JValue)) (xs : List JValue)
    (ex : String → Bool)
    (hitems : getFields rfs "items" = some (.arr xs))
    (hok : ∀ item ∈ xs, itemOK item = true) :
    ∃ ws cs, buildFlatRegistry (.obj rfs) ex = .ok (ws, cs) ∧
      ws.map Prod.fst =
        (xs.filter (fun i => truthy (jprop i "name"))).map
          (fun i => jsToString (jprop i "name") ++ ".json") ++ ["registry.json"] := by
  obtain ⟨ws, cs, hws, hmap⟩ := flatLoop_ok ex hok
  obtain ⟨ys, hys⟩ := consolidateItems_ok hok
  refine ⟨ws ++ [("registry.json",
    jnorm (.obj (setFields (fieldsOf (.obj rfs)) "items" (.arr ys))))], cs, ?_, ?_⟩
  · rw [buildFlatRegistry]
    have hgp : getProp (.obj rfs) "items" = .ok (.arr xs) := by simp [getProp, hitems]
    rw [hgp, exceptOkBind]
    show (do
        let wc ← flatLoop xs ex
        let newItems ← consolidateItems xs
        (.ok (wc.1 ++ [("registry.json",
            jnorm (.obj (setFields (fieldsOf (.obj rfs)) "items" (.arr newItems))))],
          wc.2) : Except Unit (List (String × JValue) × List String))) = _
    rw [hws, exceptOkBind, hys, exceptOkBind]
  · simp only [List.map_append, hmap, List.map_cons, List.map_nil]

theorem c9_nameless_items_skipped_witness :
    getFields [("items", JValue.arr [.obj [("type", .str "registry:lib")],
        .obj [("name", .str "coderabbit-types")]])] "items" =
      some (.arr [.obj [("type", .str "registry:lib")],
        .obj [("name", .str "coderabbit-types")]]) ∧
    (∀ item ∈ [JValue.obj [("type", .str "registry:lib")],
        JValue.obj [("name", .str "coderabbit-types")]], itemOK item = true) ∧
    (∃ ws cs, buildFlatRegistry
        (.obj [("items", JValue.arr [.obj [("type", .str "registry:lib")],
          .obj [("name", .str "coderabbit-types")]])]) (fun _ => false) = .ok (ws, cs) ∧
      ws.map Prod.fst =
        ([JValue.obj [("type", .str "registry:lib")],
          JValue.obj [("name", .str "coderabbit-types")]].filter
            (fun i => truthy (jprop i "name"))).map
          (fun i => jsToString (jprop i "name") ++ ".json") ++ ["registry.json"]) :=
  ⟨by decide, by decide,
   c9_nameless_items_skipped _ _ (fun _ => false) (by decide) (by decide)⟩

/-- The list of files written by a `buildBundles` run (empty if it fails). -/
def builtFiles : List (String × JValue) := buildBundles.toOption.getD []

/-- `output` is `input` with every `coderabbit-`-prefixed identifier
converted to exactly the base-URL form and every other identifier left
unchanged — elementwise, preserving length and order. -/
def depsConvertedB : List JValue → List JValue → Bool
  | [], [] => true
  | .str si :: is, .str so :: os =>
      (if strStartsWith si "coderabbit-" then
        so == REGISTRY_BASE_URL ++ "/" ++ si ++ ".json"
      else so == si) && depsConvertedB is os
  | _, _ => false

/-- The written bundle descriptor holds the config's `registryDependencies`
with every `coderabbit-` entry converted. -/
def bundleFileOK (cfg file : JValue) : Bool :=
  match jprop cfg "registryDependencies", jprop file "registryDependencies" with
  | .arr input, .arr output => depsConvertedB input output
  | _, _ => false

/-- The written per-backend registry index: the fixed `name` and `homepage`
fields, and exactly one item, itself with converted dependencies. -/
def bundleRegistryFileOK (cfg file : JValue) : Bool :=
  jeq (jprop file "name") (.str "coderabbit") &&
  jeq (jprop file "homepage")
    (.str "https://github.com/RMNCLDYO/coderabbit-shadcn-registry") &&
  (match jprop file "items" with
   | .arr [item1] => bundleFileOK cfg item1
   | _ => false)

/-- Backend `bn` produced its two files with the required contents. -/
def backendOutputsOK (bn : String) : Bool :=
  match getFields BUNDLES bn, getFields builtFiles (bn ++ "/coderabbit.json"),
        getFields builtFiles (bn ++ "/registry.json") with
  | some cfg, some bj, some rj => bundleFileOK cfg bj && bundleRegistryFileOK cfg rj
  | _, _, _ => false

set_option maxRecDepth 100000

/-- C5: `buildBundles` succeeds and writes exactly two files per fixed
backend key — `<backend>/coderabbit.json` and `<backend>/registry.json`,
ten files in all, in table order — and for each backend both files carry a
`registryDependencies` list in which every `coderabbit-`-prefixed entry of
the configuration is converted to the base-URL form (others unchanged),
the registry file containing exactly one item plus the fixed `name` and
`homepage` fields. -/
theorem c5_bundle_builder_outputs :
    buildBundles = .ok builtFiles ∧
    builtFiles.map Prod.fst =
      ["localstorage/coderabbit.json", "localstorage/registry.json",
       "convex/coderabbit.json", "convex/registry.json",
       "supabase/coderabbit.json", "supabase/registry.json",
       "postgres/coderabbit.json", "postgres/registry.json",
       "mysql/coderabbit.json", "mysql/registry.json"] ∧
    (["localstorage", "convex", "supabase", "postgres", "mysql"].all
      backendOutputsOK) = true := by
  exact ⟨by decide, by decide, by decide⟩

mutual

/-- `true` when the value contains no `undefined` anywhere — always the case
for a `JSON.parse` result. -/
def noUndefined : JValue → Bool
  | .undefined => false
  | .arr xs => noUndefinedArr xs
  | .obj fs => noUndefinedObj fs
  | _ => true

/-- `noUndefined` on arrays. -/
def noUndefinedArr : List JValue → Bool
  | [] => true
  | x :: rest => noUndefined x && noUndefinedArr rest

/-- `noUndefined` on object field lists. -/
def noUndefinedObj : List (String × JValue) → Bool
  | [] => true
  | (_, v) :: rest => noUndefined v && noUndefinedObj rest

end

theorem jnorm_of_noUndefined : ∀ v, noUndefined v = true → jnorm v = v := by
  apply noUndefined.induct (fun v => noUndefined v = true → jnorm v = v)
      (fun fs => noUndefinedObj fs = true → jnormFields fs = fs)
      (fun xs => noUndefinedArr xs = true → jnormArr xs = xs)
  · intro h
    simp [noUndefined] at h
  · intro xs ih h
    rw [show noUndefined (.arr xs) = noUndefinedArr xs from rfl] at h
    rw [jnorm, ih h]
  · intro fs ih h
    rw [show noUndefined (.obj fs) = noUndefinedObj fs from rfl] at h
    rw [jnorm, ih h]
  · intro v h1 h2 h3 _
    cases v <;> first
      | rfl
      | (exfalso; solve_by_elim)
  · intro _
    rfl
  · intro x rest ih1 ih2 h
    rw [show noUndefinedArr (x :: rest) = (noUndefined x && noUndefinedArr rest) from rfl,
      Bool.and_eq_true] at h
    cases x with
    | undefined => simp [noUndefined] at h
    | null =>
      show jnorm JValue.null :: jnormArr rest = JValue.null :: rest
      rw [ih1 h.1, ih2 h.2]
    | bool b =>
      show jnorm (JValue.bool b) :: jnormArr rest = JValue.bool b :: rest
      rw [ih1 h.1, ih2 h.2]
    | num n =>
      show jnorm (JValue.num n) :: jnormArr rest = JValue.num n :: rest
      rw [ih1 h.1, ih2 h.2]
    | str s =>
      show jnorm (JValue.str s) :: jnormArr rest = JValue.str s :: rest
      rw [ih1 h.1, ih2 h.2]
    | arr xs =>
      show jnorm (JValue.arr xs) :: jnormArr rest = JValue.arr xs :: rest
      rw [ih1 h.1, ih2 h.2]
    | obj fs =>
      show jnorm (JValue.obj fs) :: jnormArr rest = JValue.obj fs :: rest
      rw [ih1 h.1, ih2 h.2]
  · intro _
    rfl
  · intro k v rest ih1 ih2 h
    rw [show noUndefinedObj ((k, v) :: rest) = (noUndefined v && noUndefinedObj rest) from rfl,
      Bool.and_eq_true] at h
    cases v with
    | undefined => simp [noUndefined] at h
    | null =>
      show (k, jnorm JValue.null) :: jnormFields rest = (k, JValue.null) :: rest
      rw [ih1 h.1, ih2 h.2]
    | bool b =>
      show (k, jnorm (JValue.bool b)) :: jnormFields rest = (k, JValue.bool b) :: rest
      rw [ih1 h.1, ih2 h.2]
    | num n =>
      show (k, jnorm (JValue.num n)) :: jnormFields rest = (k, JValue.num n) :: rest
      rw [ih1 h.1, ih2 h.2]
    | str s =>
      show (k, jnorm (JValue.str s)) :: jnormFields rest = (k, JValue.str s) :: rest
      rw [ih1 h.1, ih2 h.2]
    | arr xs =>
      show (k, jnorm (JValue.arr xs)) :: jnormFields rest = (k, JValue.arr xs) :: rest
      rw [ih1 h.1, ih2 h.2]
    | obj fs =>
      show (k, jnorm (JValue.obj fs)) :: jnormFields rest = (k, JValue.obj fs) :: rest
      rw [ih1 h.1, ih2 h.2]

theorem noUndefinedArr_mem {xs : List JValue} {x : JValue}
    (h : noUndefinedArr xs = true) (hm : x ∈ xs) : noUndefined x = true := by
  induction xs with
  | nil => cases hm
  | cons y rest ih =>
    rw [show noUndefinedArr (y :: rest) = (noUndefined y && noUndefinedArr rest) from rfl,
      Bool.and_eq_true] at h
    rcases List.mem_cons.1 hm with rfl | hm2
    · exact h.1
    · exact ih h.2 hm2

theorem noUndefined_getFields {fs : List (String × JValue)} {k : String} {v : JValue}
    (h : noUndefinedObj fs = true) (hg : getFields fs k = some v) : noUndefined v = true := by
  induction fs with
  | nil => simp [getFields] at hg
  | cons kv rest ih =>
    obtain ⟨k2, v2⟩ := kv
    rw [show noUndefinedObj ((k2, v2) :: rest) = (noUndefined v2 && noUndefinedObj rest) from rfl,
      Bool.and_eq_true] at h
    by_cases hk : k2 = k
    · rw [getFields, if_pos hk] at hg
      cases hg
      exact h.1
    · rw [getFields, if_neg hk] at hg
      exact ih h.2 hg

theorem noUndefinedined_ne {v : JValue} (h : noUndefined v = true) : v ≠ .undefined := by
  intro heq
  subst heq
  simp [noUndefined] at h

theorem mapDeps_noUndefined {cb : String → String} {xs ys : List JValue}
    (h : mapDeps cb xs = .ok ys) : noUndefinedArr ys = true := by
  induction xs generalizing ys with
  | nil =>
    replace h : (Except.ok ([] : List JValue) : Except Unit (List JValue)) = .ok ys := h
    cases h
    rfl
  | cons x rest ih =>
    match x with
    | .str s =>
      simp only [mapDeps] at h
      cases hr : mapDeps cb rest with
      | error e => rw [hr] at h; exact Except.noConfusion h
      | ok r =>
        rw [hr] at h
        simp only [Except.ok.injEq] at h
        subst h
        rw [show noUndefinedArr (JValue.str (cb s) :: r) =
          (noUndefined (.str (cb s)) && noUndefinedArr r) from rfl, Bool.and_eq_true]
        exact ⟨rfl, ih hr⟩
    | .undefined | .null | .bool _ | .num _ | .arr _ | .obj _ =>
      exact Except.noConfusion h

theorem noUndefined_transformFlat {v t : JValue} (h : noUndefined v = true)
    (ht : transformRegistryDependenciesFlat v = .ok t) : noUndefined t = true := by
  cases v with
  | arr xs =>
    simp only [transformRegistryDependenciesFlat] at ht
    cases hm : mapDeps rewriteDep xs with
    | error e => rw [hm] at ht; exact Except.noConfusion ht
    | ok ys =>
      rw [hm, exceptOkBind] at ht
      replace ht : JValue.arr ys = t := by
        injection ht
      rw [← ht]
      exact mapDeps_noUndefined hm
  | undefined | null | bool _ | num _ | str _ | obj _ =>
    simp only [transformRegistryDependenciesFlat, Except.ok.injEq] at ht
    rw [← ht]
    exact h

theorem getFields_jnormFields {fs : List (String × JValue)} (k : String)
    (hnodup : (fs.map Prod.fst).Nodup) :
    getFields (jnormFields fs) k =
      match getFields fs k with
      | none => none
      | some .undefined => none
      | some v => some (jnorm v) := by
  induction fs with
  | nil => rfl
  | cons kv rest ih =>
    obtain ⟨k2, v2⟩ := kv
    rw [List.map_cons, List.nodup_cons] at hnodup
    by_cases hk : k2 = k
    · subst hk
      cases v2 with
      | undefined =>
        have hnone : getFields rest k2 = none := getFields_eq_none hnodup.1
        rw [show jnormFields ((k2, JValue.undefined) :: rest) = jnormFields rest from rfl,
          ih hnodup.2, hnone]
        simp [getFields]
      | null => simp [jnormFields, getFields]
      | bool b => simp [jnormFields, getFields]
      | num n => simp [jnormFields, getFields]
      | str s => simp [jnormFields, getFields]
      | arr xs => simp [jnormFields, getFields]
      | obj fs2 => simp [jnormFields, getFields]
    · cases v2 with
      | undefined =>
        rw [show jnormFields ((k2, JValue.undefined) :: rest) = jnormFields rest from rfl,
          ih hnodup.2]
        rw [getFields, if_neg hk]
      | null => simp [jnormFields, getFields, hk, ih hnodup.2]
      | bool b => simp [jnormFields, getFields, hk, ih hnodup.2]
      | num n => simp [jnormFields, getFields, hk, ih hnodup.2]
      | str s => simp [jnormFields, getFields, hk, ih hnodup.2]
      | arr xs => simp [jnormFields, getFields, hk, ih hnodup.2]
      | obj fs2 => simp [jnormFields, getFields, hk, ih hnodup.2]

theorem jnormArr_no_undefined {ys : List JValue} (h : ∀ y ∈ ys, y ≠ .undefined) :
    jnormArr ys = ys.map jnorm := by
  induction ys with
  | nil => rfl
  | cons y rest ih =>
    have hrest := ih (fun z hz => h z (by simp [hz]))
    cases y with
    | undefined => exact absurd rfl (h .undefined (by simp))
    | null => rw [show jnormArr (JValue.null :: rest) = jnorm .null :: jnormArr rest from rfl,
        hrest, List.map_cons]
    | bool b => rw [show jnormArr (JValue.bool b :: rest) =
        jnorm (.bool b) :: jnormArr rest from rfl, hrest, List.map_cons]
    | num n => rw [show jnormArr (JValue.num n :: rest) =
        jnorm (.num n) :: jnormArr rest from rfl, hrest, List.map_cons]
    | str s => rw [show jnormArr (JValue.str s :: rest) =
        jnorm (.str s) :: jnormArr rest from rfl, hrest, List.map_cons]
    | arr xs => rw [show jnormArr (JValue.arr xs :: rest) =
        jnorm (.arr xs) :: jnormArr rest from rfl, hrest, List.map_cons]
    | obj fs => rw [show jnormArr (JValue.obj fs :: rest) =
        jnorm (.obj fs) :: jnormArr rest from rfl, hrest, List.map_cons]

theorem consolidateItems_spec {xs : List JValue}
    (hok : ∀ item ∈ xs, itemOK item = true) :
    ∃ ys, consolidateItems xs = .ok ys ∧
      List.Forall₂ (fun item y => ∃ ifs t, item = .obj ifs ∧
        (List.map Prod.fst ifs).Nodup ∧
        transformRegistryDependenciesFlat
          ((getFields ifs "registryDependencies").getD .undefined) = .ok t ∧
        y = .obj (setFields ifs "registryDependencies" t)) xs ys := by
  induction xs with
  | nil => exact ⟨[], rfl, List.Forall₂.nil⟩
  | cons item rest ih =>
    obtain ⟨ys, hys, hrel⟩ := ih (fun i hi => hok i (by simp [hi]))
    have hi := hok item (by simp)
    match item with
    | .obj ifs =>
      have hsplit := hi
      simp only [itemOK, Bool.and_eq_true, decide_eq_true_eq] at hsplit
      obtain ⟨⟨hnodup, hdeps⟩, _⟩ := hsplit
      obtain ⟨t, ht⟩ := transformFlat_ok_of_depsOK hdeps
      refine ⟨.obj (setFields (fieldsOf (.obj ifs)) "registryDependencies" t) :: ys, ?_, ?_⟩
      · have hgp : getProp (JValue.obj ifs) "registryDependencies" =
            .ok ((getFields ifs "registryDependencies").getD .undefined) := rfl
        rw [consolidateItems, hgp, exceptOkBind, ht, exceptOkBind, hys, exceptOkBind]
      · exact List.Forall₂.cons ⟨ifs, t, rfl, hnodup, ht, rfl⟩ hrel
    | .undefined | .null | .bool _ | .num _ | .str _ | .arr _ =>
      exact absurd hi (by simp [itemOK])

theorem consolidate_ys_ne_undefined {xs ys0 : List JValue}
    (hrel : List.Forall₂ (fun item y => ∃ ifs t, item = .obj ifs ∧
        (List.map Prod.fst ifs).Nodup ∧
        transformRegistryDependenciesFlat
          ((getFields ifs "registryDependencies").getD .undefined) = .ok t ∧
        y = .obj (setFields ifs "registryDependencies" t)) xs ys0) :
    ∀ y ∈ ys0, y ≠ .undefined := by
  induction hrel with
  | nil =>
    intro y hy
    cases hy
  | cons hpair hrest ih =>
    intro y hy
    rcases List.mem_cons.1 hy with rfl | hy2
    · obtain ⟨ifs, t, _, _, _, rfl⟩ := hpair
      simp
    · exact ih y hy2

theorem c6_pointwise {xs ys0 : List JValue}
    (hrel : List.Forall₂ (fun item y => ∃ ifs t, item = .obj ifs ∧
        (List.map Prod.fst ifs).Nodup ∧
        transformRegistryDependenciesFlat
          ((getFields ifs "registryDependencies").getD .undefined) = .ok t ∧
        y = .obj (setFields ifs "registryDependencies" t)) xs ys0)
    (hnu : noUndefinedArr xs = true) :
    List.Forall₂ (fun item y =>
        (∀ k, k ≠ "registryDependencies" → jget y k = jget item k) ∧
        jget y "files" = jget item "files" ∧
        (match jget item "registryDependencies" with
         | some v => ∃ r, transformRegistryDependenciesFlat v = .ok r ∧
             jget y "registryDependencies" = some r
         | none => jget y "registryDependencies" = none)) xs (ys0.map jnorm) := by
  induction hrel with
  | nil => exact List.Forall₂.nil
  | cons hpair hrest ih =>
    rename_i item y xs2 ys2
    rw [show noUndefinedArr (item :: xs2) = (noUndefined item && noUndefinedArr xs2) from rfl,
      Bool.and_eq_true] at hnu
    rw [List.map_cons]
    refine List.Forall₂.cons ?_ (ih hnu.2)
    obtain ⟨ifs, t, rfl, hnodupI, ht, rfl⟩ := hpair
    have hnuI : noUndefinedObj ifs = true := hnu.1
    have hnodupSet := nodup_keys_setFields "registryDependencies" t hnodupI
    have hjn : jnorm (.obj (setFields ifs "registryDependencies" t)) =
        .obj (jnormFields (setFields ifs "registryDependencies" t)) := rfl
    have ha : ∀ k, k ≠ "registryDependencies" →
        jget (jnorm (.obj (setFields ifs "registryDependencies" t))) k =
        jget (JValue.obj ifs) k := by
      intro k hk
      rw [hjn]
      show getFields (jnormFields (setFields ifs "registryDependencies" t)) k =
        getFields ifs k
      rw [getFields_jnormFields k hnodupSet, getFields_set_other hk]
      cases hg : getFields ifs k with
      | none => rfl
      | some v =>
        have hnv : noUndefined v = true := noUndefined_getFields hnuI hg
        have hneu := noUndefinedined_ne hnv
        cases v <;> first
          | (exact absurd rfl hneu)
          | (show some (jnorm _) = _; rw [jnorm_of_noUndefined _ hnv])
    refine ⟨ha, ha "files" (by decide), ?_⟩
    rw [show jget (JValue.obj ifs) "registryDependencies" =
      getFields ifs "registryDependencies" from rfl]
    cases hg : getFields ifs "registryDependencies" with
    | some v =>
      have hnv : noUndefined v = true := noUndefined_getFields hnuI hg
      rw [hg] at ht
      rw [Option.getD_some] at ht
      have hnt : noUndefined t = true := noUndefined_transformFlat hnv ht
      refine ⟨t, ht, ?_⟩
      rw [hjn]
      show getFields (jnormFields (setFields ifs "registryDependencies" t))
        "registryDependencies" = some t
      rw [getFields_jnormFields _ hnodupSet, getFields_set_same]
      have hneu := noUndefinedined_ne hnt
      cases t <;> first
        | (exact absurd rfl hneu)
        | (show some (jnorm _) = _; rw [jnorm_of_noUndefined _ hnt])
    | none =>
      rw [hg, Option.getD_none] at ht
      have htu : t = .undefined := by
        replace ht : (Except.ok JValue.undefined : Except Unit JValue) = .ok t := ht
        injection ht with h2
        exact h2.symm
      subst htu
      rw [hjn]
      show getFields (jnormFields (setFields ifs "registryDependencies" .undefined))
        "registryDependencies" = none
      rw [getFields_jnormFields _ hnodupSet, getFields_set_same]

/-- C6: after processing all items, the flat registry builder's final write
is the consolidated index `registry.json`, whose `items` list contains
every item of the original input in order — including items without a
name — with `registryDependencies` rewritten (and the key absent exactly
when it was absent in the input), while every other attribute, `files`
entries with their `content` fields included, is retained unchanged (not
stripped, in contrast to the per-item descriptor files). -/
theorem c6_consolidated_registry (rfs : List (String × JValue)) (xs : List JValue)
    (ex : String → Bool)
    (hnodup : (rfs.map Prod.fst).Nodup)
    (hnou : noUndefined (.obj rfs) = true)
    (hitems : getFields rfs "items" = some (.arr xs))
    (hok : ∀ item ∈ xs, itemOK item = true) :
    ∃ out W ys, buildFlatRegistry (.obj rfs) ex = .ok out ∧
      out.1.getLast? = some ("registry.json", W) ∧
      jget W "items" = some (.arr ys) ∧
      List.Forall₂ (fun item y =>
        (∀ k, k ≠ "registryDependencies" → jget y k = jget item k) ∧
        jget y "files" = jget item "files" ∧
        (match jget item "registryDependencies" with
         | some v => ∃ r, transformRegistryDependenciesFlat v = .ok r ∧
             jget y "registryDependencies" = some r
         | none => jget y "registryDependencies" = none)) xs ys := by
  obtain ⟨ws, cs, hws, _⟩ := flatLoop_ok ex hok
  obtain ⟨ys0, hys0, hrel⟩ := consolidateItems_spec hok
  have hnouObj : noUndefinedObj rfs = true := hnou
  have hnouArr : noUndefinedArr xs = true := noUndefined_getFields hnouObj hitems
  have hys0ne : ∀ y ∈ ys0, y ≠ .undefined := consolidate_ys_ne_undefined hrel
  have hrel2 := c6_pointwise hrel hnouArr
  refine ⟨(ws ++ [("registry.json",
      jnorm (.obj (setFields (fieldsOf (.obj rfs)) "items" (.arr ys0))))], cs),
    jnorm (.obj (setFields (fieldsOf (.obj rfs)) "items" (.arr ys0))),
    ys0.map jnorm, ?_, ?_, ?_, hrel2⟩
  · rw [buildFlatRegistry]
    have hgp : getProp (.obj rfs) "items" = .ok (.arr xs) := by simp [getProp, hitems]
    rw [hgp, exceptOkBind]
    show (do
        let wc ← flatLoop xs ex
        let newItems ← consolidateItems xs
        (.ok (wc.1 ++ [("registry.json",
            jnorm (.obj (setFields (fieldsOf (.obj rfs)) "items" (.arr newItems))))],
          wc.2) : Except Unit (List (String × JValue) × List String))) = _
    rw [hws, exceptOkBind, hys0, exceptOkBind]
  · show (ws ++ ("registry.json",
      jnorm (.obj (setFields (fieldsOf (.obj rfs)) "items" (.arr ys0)))) :: []).getLast? = _
    rw [List.getLast?_append_cons]
    rfl
  · show getFields (jnormFields (setFields rfs "items" (.arr ys0))) "items" =
      some (.arr (ys0.map jnorm))
    rw [getFields_jnormFields _ (nodup_keys_setFields _ _ hnodup), getFields_set_same]
    show some (JValue.arr (jnormArr ys0)) = some (JValue.arr (ys0.map jnorm))
    rw [jnormArr_no_undefined hys0ne]

/-- The item list of a small concrete registry (one named item with
dependencies and an inline-`content` file entry, one nameless item),
used to instantiate the consolidated-index theorem. -/
def sampleItems : List JValue :=
  [.obj [("name", .str "coderabbit-form"),
         ("registryDependencies", jstrArr ["button", "coderabbit-types"]),
         ("files", .arr [.obj [("path", .str "lib/foo.ts"),
           ("content", .str "export const x=1"), ("type", .str "registry:lib")]])],
   .obj [("type", .str "registry:lib")]]

/-- The field list of the small concrete registry document. -/
def sampleRegistryFields : List (String × JValue) :=
  [("name", .str "coderabbit"), ("items", .arr sampleItems)]

theorem c6_consolidated_registry_witness :
    ((sampleRegistryFields.map Prod.fst).Nodup ∧
     noUndefined (.obj sampleRegistryFields) = true ∧
     getFields sampleRegistryFields "items" = some (.arr sampleItems) ∧
     (∀ item ∈ sampleItems, itemOK item = true)) ∧
    (∃ out W ys, buildFlatRegistry (.obj sampleRegistryFields) (fun _ => false) = .ok out ∧
      out.1.getLast? = some ("registry.json", W) ∧
      jget W "items" = some (.arr ys) ∧
      List.Forall₂ (fun item y =>
        (∀ k, k ≠ "registryDependencies" → jget y k = jget item k) ∧
        jget y "files" = jget item "files" ∧
        (match jget item "registryDependencies" with
         | some v => ∃ r, transformRegistryDependenciesFlat v = .ok r ∧
             jget y "registryDependencies" = some r
         | none => jget y "registryDependencies" = none)) sampleItems ys) :=
  ⟨⟨by decide, by decide, by decide, by decide⟩,
   c6_consolidated_registry sampleRegistryFields sampleItems (fun _ => false)
     (by decide) (by decide) (by decide) (by decide)⟩

example : rewriteDep "coderabbit-types" =
    "https://raw.githubusercontent.com/RMNCLDYO/coderabbit-shadcn-registry/main/public/r/coderabbit-types.json" := by
  decide

example : rewriteDepPost "https://example.com/a.json" = "https://example.com/a.json" := by
  decide

example : transformRegistryDependenciesBundles JValue.null = .error () := by decide

example : transformDeps JValue.null = .ok JValue.null := by decide

example : processFile (.obj [("registryDependencies", jstrArr ["button", "coderabbit-types"])]) =
    .ok (.obj [("registryDependencies",
      jstrArr ["button",
        "https://raw.githubusercontent.com/RMNCLDYO/coderabbit-shadcn-registry/main/public/r/coderabbit-types.json"])],
      true) := by decide

example : processFile (.obj [("registryDependencies",
      jstrArr ["button",
        "https://raw.githubusercontent.com/RMNCLDYO/coderabbit-shadcn-registry/main/public/r/coderabbit-types.json"])]) =
    .ok (.obj [("registryDependencies",
      jstrArr ["button",
        "https://raw.githubusercontent.com/RMNCLDYO/coderabbit-shadcn-registry/main/public/r/coderabbit-types.json"])],
      false) := by decide

example : processFile (.obj [("items", JValue.arr [.obj [("name", .str "a"),
      ("registryDependencies", jstrArr ["coderabbit-form"])]])]) =
    .ok (.obj [("items", JValue.arr [.obj [("name", .str "a"),
      ("registryDependencies",
        jstrArr ["https://raw.githubusercontent.com/RMNCLDYO/coderabbit-shadcn-registry/main/public/r/coderabbit-form.json"])]])],
      true) := by decide

example : mainRun (.dir "r" [.file "a.json" (some (.obj [("registryDependencies",
      jstrArr ["coderabbit-x"])])), .file "bad.json" none] true) (fun _ => true) =
    .ok 1 := by decide

example : mainRun (.dir "r" [.dir "sub" [] false] true) (fun _ => true) = .error () := by
  decide

example : generateItemJSON (.obj [("name", .str "coderabbit-form"),
      ("files", JValue.arr [.obj [("path", .str "lib/foo.ts"),
        ("content", .str "export const x=1"), ("type", .str "registry:lib")]])]) =
    .ok (.obj [("$schema", .str SCHEMA_ITEM), ("name", .str "coderabbit-form"),
      ("files", JValue.arr [.obj [("path", .str "lib/foo.ts"),
        ("type", .str "registry:lib")]])]) := by decide

example : buildFlatRegistry (.obj [("items", JValue.arr [
      .obj [("name", .str "coderabbit-types"),
            ("registryDependencies", jstrArr ["button", "coderabbit-client"])],
      .obj [("type", .str "registry:lib")]])]) (fun _ => false) =
    .ok ([("coderabbit-types.json",
           .obj [("$schema", .str SCHEMA_ITEM), ("name", .str "coderabbit-types"),
                 ("registryDependencies", jstrArr ["button",
                   "https://raw.githubusercontent.com/RMNCLDYO/coderabbit-shadcn-registry/main/public/r/coderabbit-client.json"])]),
          ("registry.json",
           .obj [("items", JValue.arr [
             .obj [("name", .str "coderabbit-types"),
                   ("registryDependencies", jstrArr ["button",
                     "https://raw.githubusercontent.com/RMNCLDYO/coderabbit-shadcn-registry/main/public/r/coderabbit-client.json"])],
             .obj [("type", .str "registry:lib")]])])],
         []) := by decide
